import Mathlib

/-!
# A verification development for the core of a Vue-2-style reactive runtime

Shallow embedding, in Lean 4, of selected functions of the repository:
the reactivity engine (`observe`, `defineReactive`, `set`, `del`, the array
method interceptor), the option merger (`mergeData`, `mergeDataOrFn`), prop
validation (`validateProp`), the event bus (`$on`/`$off`/`$emit`), the text
parser (`parseText`), the HTML parser (`parseHTML`) and the static optimizer
(`markStatic`/`markStaticRoots`).  Each namespace embeds one source module;
JavaScript strings are modelled as `List Char`, JavaScript objects as
association lists, and JavaScript exceptions as `Except`.
-/

/-! ## Shared string helpers (JavaScript platform behaviour) -/

namespace JsStr

/-- The ASCII part of JavaScript's whitespace class `\s` (space, tab, LF, VT,
FF, CR).  Non-ASCII whitespace code points are outside the model; none of
the inputs used below contains one. -/
def isWS (c : Char) : Bool :=
  c = ' ' || c = '\t' || c = '\n' || c = '\r' || c = Char.ofNat 11 || c = Char.ofNat 12

/-- `String.prototype.trim` on the ASCII fragment. -/
def trim (s : List Char) : List Char :=
  ((s.dropWhile isWS).reverse.dropWhile isWS).reverse

/-- Index of the first occurrence of `pat` in `s` (JavaScript
`String.prototype.indexOf`), or `none`. -/
def findSub (pat : List Char) : List Char → Option Nat
  | [] => if pat.isEmpty then some 0 else none
  | c :: rest =>
    if pat.isPrefixOf (c :: rest) then some 0
    else (findSub pat rest).map (· + 1)

/-- Lower-case hex digit, for `\u00xx` escapes. -/
def hexDigit (n : Nat) : Char :=
  if n < 10 then Char.ofNat (48 + n) else Char.ofNat (87 + n)

/-- `JSON.stringify` escaping of one character (well-formed ASCII input; lone
surrogates are outside the model). -/
def jsonEscape (c : Char) : List Char :=
  if c = '"' then ['\\', '"']
  else if c = '\\' then ['\\', '\\']
  else if c = Char.ofNat 8 then ['\\', 'b']
  else if c = '\t' then ['\\', 't']
  else if c = '\n' then ['\\', 'n']
  else if c = Char.ofNat 12 then ['\\', 'f']
  else if c = '\r' then ['\\', 'r']
  else if c.toNat < 32 then
    ['\\', 'u', '0', '0', hexDigit (c.toNat / 16), hexDigit (c.toNat % 16)]
  else [c]

/-- `JSON.stringify` of a string value. -/
def jsonStringify (s : List Char) : List Char :=
  '"' :: s.foldr (fun c acc => jsonEscape c ++ acc) ['"']

end JsStr

/-! ## `src/compiler/parser/text-parser.js` — `parseText` -/

namespace VText

/-- One entry of the `rawTokens` list `parseText` builds: a literal text
chunk, or the structured record written in the source as a one-key object
whose key is the string at-binding and whose value is the expression. -/
inductive RawToken where
  | lit (s : String)
  | binding (exp : String)
deriving DecidableEq, Repr

/-- The record `parseText` returns when the text holds an interpolation. -/
structure TextParseResult where
  expression : String
  tokens : List RawToken
deriving DecidableEq, Repr

/-- Leftmost match of the (delimiter-built) interpolation regex in `s`: the
source pattern is open-delimiter, then a non-greedy non-empty run of
arbitrary characters, then close-delimiter.  Returns
(index of the match, the inner capture, length of the whole match).

The non-greedy inner run means the capture ends at the first occurrence of
`close` lying at least one character after the opening delimiter; if the
first occurrence of `open` has no such closer, no later one has either, so
the whole regex fails. -/
def tagMatch (openD closeD : List Char) (s : List Char) :
    Option (Nat × List Char × Nat) :=
  match JsStr.findSub openD s with
  | none => none
  | some i =>
    match JsStr.findSub closeD (s.drop (i + openD.length + 1)) with
    | none => none
    | some j =>
      some (i, (s.drop (i + openD.length)).take (j + 1),
            openD.length + (j + 1) + closeD.length)

/-- The delimiters of the cached `defaultTagRE` (the mustache pair). -/
def defaultOpen : List Char := [Char.ofNat 123, Char.ofNat 123]

/-- Closing delimiters of `defaultTagRE`. -/
def defaultClose : List Char := [Char.ofNat 125, Char.ofNat 125]

/-- `tagRE.test(text)` for the default delimiters. -/
def hasInterpolation (text : String) : Bool :=
  (tagMatch defaultOpen defaultClose text.toList).isSome

/-- The loop body of `parseText`: walks the text left to right with
`tagRE.exec`, pushing `JSON.stringify` literals and `_s(exp)` dynamic tokens
into `tokens`, and literals / binding records into `rawTokens`.
`pf` is `parseFilters` (an opaque expression transformation imported from
`./filter-parser`, which is outside the embedded sources).

The loop advances by at least one character per match (`tagMatch_len_pos`),
so running it with fuel `s.length + 1` — as `parseText` does — never reaches
the fuel-exhaustion branch. -/
def parseLoop (pf : String → String) (openD closeD : List Char) :
    Nat → List Char → List String × List RawToken
  | 0, _ => ([], [])
  | fuel + 1, s =>
    match tagMatch openD closeD s with
    | none =>
      -- `if (lastIndex < text.length)`: push the tail literal
      if s.isEmpty then ([], [])
      else ([(JsStr.jsonStringify s).asString], [.lit s.asString])
    | some (i, inner, len) =>
      -- `if (index > lastIndex)`: push the literal before the match
      let pre := s.take i
      let preT : List String :=
        if 0 < i then [(JsStr.jsonStringify pre).asString] else []
      let preR : List RawToken := if 0 < i then [.lit pre.asString] else []
      let exp := pf (JsStr.trim inner).asString
      let t := parseLoop pf openD closeD fuel (s.drop (i + len))
      (preT ++ ["_s(" ++ exp ++ ")"] ++ t.1,
       preR ++ [.binding exp] ++ t.2)

/-- `parseText(text, delimiters)`.  `pf` stands for `parseFilters`.  The
delimiters default to the mustache pair of the cached `defaultTagRE`; a
custom pair goes through `buildRegex`, which escapes it and builds the same
shape of pattern. -/
def parseTextWith (pf : String → String) (openD closeD : List Char)
    (text : String) : Option TextParseResult :=
  -- `if (!tagRE.test(text)) return`
  match tagMatch openD closeD text.toList with
  | none => none
  | some _ =>
    let t := parseLoop pf openD closeD (text.toList.length + 1) text.toList
    some ⟨String.intercalate "+" t.1, t.2⟩

def parseText (pf : String → String)
    (text : String) (delimiters : Option (String × String) := none) :
    Option TextParseResult :=
  parseTextWith pf
    ((delimiters.map (·.1.toList)).getD defaultOpen)
    ((delimiters.map (·.2.toList)).getD defaultClose)
    text

/-- Counts the binding records of a token list. -/
def bindingCount (ts : List RawToken) : Nat :=
  ts.countP fun t => match t with | .binding _ => true | .lit _ => false

/-- A concrete stand-in for `parseFilters`: maps the pipe expression of the
scenario to its filtered call form and leaves plain expressions alone. -/
def pfScenario : String → String :=
  fun s => if s = "b|f" then "_f(\"f\")(b)" else s

end VText

/-! ## `src/core/instance/events.js` — the event bus -/

namespace VEvents

/-- A handler held in `vm._events[event]`: either a plain function
registered by `$on`, carrying its identity, or the self-removing wrapper
`$once` builds (whose `.fn` field holds the original), carrying the
wrapper's identity and the wrapped function's identity.  Functions are
compared by identity in the source, modelled as a numeric id. -/
inductive Handler where
  | plain (id : Nat)
  | once (wrapperId : Nat) (fnId : Nat)
deriving DecidableEq, Repr

/-- `cb === fn || cb.fn === fn`, the test `$off(event, fn)` applies to each
stored handler (a plain function has no `.fn`, so its second disjunct is
`undefined === fn`, always false). -/
def matchesFn : Handler → Nat → Bool
  | .plain i, f => i = f
  | .once w g, f => w = f || g = f

/-- The splice-and-break loop of `$off(event, fn)` viewed on the reversed
list: `let i = cbs.length; while (i--) { … if (cb === fn || cb.fn === fn)
{ cbs.splice(i, 1); break } }` walks from the end and removes the first hit,
i.e. the head-most hit of the reversed list. -/
def offLoop (f : Nat) : List Handler → List Handler
  | [] => []
  | cb :: rest => if matchesFn cb f then rest else cb :: offLoop f rest

/-- `$off(event, fn)`'s effect on one event's handler list: remove the most
recently registered matching handler, if any. -/
def offRemove (f : Nat) (cbs : List Handler) : List Handler :=
  (offLoop f cbs.reverse).reverse

/-- `$off(event, fn)` with both arguments present.  `none` stands for a slot
that is missing or was nulled by `$off(event)` — both read as falsy, so
`if (!cbs) return vm` leaves the map unchanged. -/
def offEventFn (cbs : Option (List Handler)) (f : Nat) : Option (List Handler) :=
  match cbs with
  | none => none
  | some l => some (offRemove f l)

/-- `$on(event, fn)`: `(vm._events[event] || (vm._events[event] = [])).push(fn)`. -/
def onAppend (cbs : Option (List Handler)) (h : Handler) : Option (List Handler) :=
  some (cbs.getD [] ++ [h])

/-- `$emit(event)`: snapshot the list (`toArray`) and call every handler in
registration order through `invokeWithErrorHandling`; the returned list is
the invocation order. -/
def emitInvokes (cbs : Option (List Handler)) : List Handler :=
  cbs.getD []

end VEvents

/-! ## `src/core/util/props.js` (second half of `options.js` in the staged
sources) — `validateProp` -/

namespace VProps

/-- A prop value flowing through `validateProp`.  `undefined` is JS `undefined`
(also what reading an absent key yields); `vfn` is a function value,
compared by identity. -/
inductive PVal where
  | undefined
  | vbool (b : Bool)
  | vstr (s : String)
  | vnum (n : Int)
  | vobj (id : Nat)
  | vfn (id : Nat)
deriving DecidableEq, Repr

/-- A declared prop type: a constructor, known only through `getType`'s
extraction of its `function <name>` source text, or the `null` written by
the array-of-strings props normalization. -/
inductive PType where
  | named (s : String)
  | tnull
deriving DecidableEq, Repr

/-- `getType(fn)`: the `\w+` after `function` in `fn.toString()`; a falsy
`fn` (the `null` type) yields the empty string. -/
def getType : PType → String
  | .named s => s
  | .tnull => ""

/-- `isSameType(a, b)`. -/
def isSameType (a b : PType) : Bool := getType a = getType b

/-- The shape of `prop.type` after props normalization: `null`, a single
constructor, or an array of constructors. -/
inductive TypeDecl where
  | single (t : PType)
  | list (ts : List PType)
deriving DecidableEq, Repr

/-- The loop of `getTypeIndex` over an array of expected types: index of the
first entry with the same `getType` name, `-1` if none. -/
def getTypeIndexList (t : PType) : List PType → Int
  | [] => -1
  | e :: rest =>
    if isSameType e t then 0
    else
      let r := getTypeIndexList t rest
      if r < 0 then -1 else r + 1

/-- `getTypeIndex(type, expectedTypes)`. -/
def getTypeIndex (t : PType) : TypeDecl → Int
  | .single e => if isSameType e t then 0 else -1
  | .list es => getTypeIndexList t es

/-- `prop.default`: absent, a plain value, or a factory function (identity
`id`, producing `ret` when called). -/
inductive DefaultDecl where
  | noDefault
  | defVal (v : PVal)
  | defFn (id : Nat) (ret : PVal)
deriving DecidableEq, Repr

/-- `hasOwn(prop, 'default')`. -/
def DefaultDecl.isPresent : DefaultDecl → Bool
  | .noDefault => false
  | _ => true

/-- A normalized prop option record (`validator` and `required` only feed
`assertProp`'s development warnings and are omitted). -/
structure PropOpt where
  type : TypeDecl
  dflt : DefaultDecl
deriving DecidableEq, Repr

/-- Own-key lookup in a JS object modelled as an association list. -/
def jget (l : List (String × PVal)) (k : String) : Option PVal :=
  (l.find? (fun p => p.1 = k)).map (·.2)

/-- `hasOwn(obj, key)`. -/
def hasOwn (l : List (String × PVal)) (k : String) : Bool := (jget l k).isSome

/-- A property read, which yields `undefined` for an absent key. -/
def readVal (l : List (String × PVal)) (k : String) : PVal :=
  (jget l k).getD .undefined

/-- `getType(prop.type)` as `getPropDefaultValue` calls it: on an array the
JS `toString` joins the constructors' source text, so the match still
extracts the first constructor's name (empty array gives no match). -/
def getTypeOfDecl : TypeDecl → String
  | .single t => getType t
  | .list [] => ""
  | .list (t :: _) => getType t

/-- The slice of the instance `getPropDefaultValue` consults:
`$options.propsData` and `_props` (holding the previous render's values). -/
structure VmCtx where
  propsData : Option (List (String × PVal))
  prevProps : List (String × PVal)

/-- `vm && vm.$options.propsData && vm.$options.propsData[key] === undefined
&& vm._props[key] !== undefined`. -/
def reuseCond (c : VmCtx) (key : String) : Bool :=
  match c.propsData with
  | some pd => readVal pd key == PVal.undefined && readVal c.prevProps key != PVal.undefined
  | none => false

/-- `getPropDefaultValue(vm, prop, key)` (the development-only warning for
object defaults is omitted). -/
def getPropDefaultValue (vm : Option VmCtx) (prop : PropOpt) (key : String) :
    PVal :=
  match prop.dflt with
  | .noDefault => .undefined
  | .defVal v =>
    match vm with
    | some c => if reuseCond c key then readVal c.prevProps key else v
    | none => v
  | .defFn id ret =>
    match vm with
    | some c =>
      if reuseCond c key then readVal c.prevProps key
      else if getTypeOfDecl prop.type = "Function" then .vfn id else ret
    | none => if getTypeOfDecl prop.type = "Function" then .vfn id else ret

/-- The boolean-casting block of `validateProp` (`if (booleanIndex > -1)`),
computing the value after the special casting rules.  `hyphenate` is the
cached helper of `shared/util` (not among the staged sources), passed in as
a parameter. -/
def booleanCast (hyphenate : String → String) (key : String) (prop : PropOpt)
    (propsData : List (String × PVal)) : PVal :=
  if getTypeIndex (.named "Boolean") prop.type > -1 then
    -- `absent && !hasOwn(prop, 'default')`
    if !(hasOwn propsData key) && !prop.dflt.isPresent then PVal.vbool false
    -- `value === '' || value === hyphenate(key)`
    else if readVal propsData key == PVal.vstr "" ||
        readVal propsData key == PVal.vstr (hyphenate key) then
      -- `stringIndex < 0 || booleanIndex < stringIndex`
      if getTypeIndex (.named "String") prop.type < 0 ||
          getTypeIndex (.named "Boolean") prop.type <
            getTypeIndex (.named "String") prop.type then PVal.vbool true
      else readVal propsData key
    else readVal propsData key
  else readVal propsData key

/-- `validateProp(key, propOptions, propsData, vm)` for one prop, yielding
the validated value: the boolean casting block, then the default for a value
still `undefined`.  The `toggleObserving`/`observe` bracket around the
default and the `assertProp` call only toggle observation and emit
development warnings; neither changes the returned value, so they are not
modelled. -/
def validateProp (hyphenate : String → String) (key : String) (prop : PropOpt)
    (propsData : List (String × PVal)) (vm : Option VmCtx) : PVal :=
  if booleanCast hyphenate key prop propsData == PVal.undefined then
    getPropDefaultValue vm prop key
  else booleanCast hyphenate key prop propsData

/-- The identity hyphenation (a one-word key hyphenates to itself). -/
def hyphId : String → String := fun s => s

/-- A prop declared `[Boolean, String]` with no default. -/
def propBoolStr : PropOpt :=
  ⟨TypeDecl.list [PType.named "Boolean", PType.named "String"],
   DefaultDecl.noDefault⟩

end VProps

/-! ## `src/core/util/options.js` — `mergeData` / `mergeDataOrFn` -/

namespace VMerge

mutual

/-- A data value as the `data` factories return it.  `obj` is a plain object
(`isPlainObject` true) with the ordered sequence of its own enumerable keys;
`leaf` carries any other object (array, function, …) by identity. -/
inductive JVal where
  | undefined
  | jnull
  | jnum (n : Int)
  | jstr (s : String)
  | jbool (b : Bool)
  | obj (fields : JFields)
  | leaf (id : Nat)

/-- The ordered own enumerable fields of a plain object. -/
inductive JFields where
  | nilF
  | consF (k : String) (v : JVal) (rest : JFields)

end

mutual

/-- Structural equality of data values, standing in for the reference
comparison `toVal !== fromVal` of `mergeData`: merging a pair of
distinct-but-structurally-equal plain objects is a no-op by induction, so
the structural test agrees with the reference test everywhere in the
model. -/
def jeq : JVal → JVal → Bool
  | .undefined, .undefined => true
  | .jnull, .jnull => true
  | .jnum n, .jnum m => n == m
  | .jstr s, .jstr t => s == t
  | .jbool a, .jbool b => a == b
  | .obj fs, .obj gs => jeqF fs gs
  | .leaf i, .leaf j => i == j
  | _, _ => false

/-- Structural equality of field sequences. -/
def jeqF : JFields → JFields → Bool
  | .nilF, .nilF => true
  | .consF k v r, .consF k2 v2 r2 => k == k2 && jeq v v2 && jeqF r r2
  | _, _ => false

end

/-- `isPlainObject(v)` (`toString` tag check). -/
def isPlainObject : JVal → Bool
  | .obj _ => true
  | _ => false

/-- JavaScript truthiness of a data value. -/
def truthy : JVal → Bool
  | .undefined => false
  | .jnull => false
  | .jnum n => n != 0
  | .jstr s => s != ""
  | .jbool b => b
  | .obj _ => true
  | .leaf _ => true

/-- Own-key lookup (`hasOwn` + read). -/
def fget : JFields → String → Option JVal
  | .nilF, _ => none
  | .consF k1 v rest, k => if k1 = k then some v else fget rest k

/-- In-place update of an existing own key, keeping its position (the JS
nested `mergeData(toVal, fromVal)` mutates the object held at the key). -/
def fset : JFields → String → JVal → JFields
  | .nilF, _, _ => .nilF
  | .consF k1 v rest, k, w =>
    if k1 = k then .consF k1 w rest else .consF k1 v (fset rest k w)

/-- Appending a fresh own key (a plain assignment to an absent key adds it
in insertion order). -/
def snocF : JFields → String → JVal → JFields
  | .nilF, k, w => .consF k w .nilF
  | .consF k1 v rest, k, w => .consF k1 v (snocF rest k w)

/-- The key list of an object (JS object keys are pairwise distinct). -/
def keysF : JFields → List String
  | .nilF => []
  | .consF k _ rest => k :: keysF rest

mutual

/-- `mergeData(to, from)`: for each own key of `from` (skipping `__ob__`),
copy a key absent from `to` (via `set`, which on these merge-time objects is
a plain own assignment appending the key), recurse when both sides hold
distinct plain objects, and otherwise leave `to`'s value.  For a `from`
that is not a plain object the key loop has nothing to visit (falsy `from`
returns early) and `to` comes back unchanged; a primitive `to` paired with
an object `from` is outside the modelled domain (there `set` would
throw). -/
def mergeData (tov fromv : JVal) : JVal :=
  match tov, fromv with
  | .obj tf, .obj ff => .obj (mergeFields tf ff)
  | t, _ => t

/-- The key loop of `mergeData`, with `tf` the mutated state of `to`. -/
def mergeFields (tf : JFields) : JFields → JFields
  | .nilF => tf
  | .consF k fv rest =>
    if k = "__ob__" then mergeFields tf rest
    else
      match fget tf k with
      | none => mergeFields (snocF tf k fv) rest
      | some tv =>
        if !(jeq tv fv) && isPlainObject tv && isPlainObject fv then
          mergeFields (fset tf k (mergeData tv fv)) rest
        else mergeFields tf rest

end

/-- One side of the `data` option as `mergeDataOrFn` receives it: absent, a
factory function (modelled with the value a call returns — the factories of
the claim are closed), or a raw non-function value. -/
inductive DataOption where
  | dnone
  | dfn (ret : JVal)
  | draw (v : JVal)

/-- `typeof v === 'function' ? v.call(vm, vm) : v`. -/
def invokeData : DataOption → JVal
  | .dnone => .undefined
  | .dfn r => r
  | .draw v => v

/-- JavaScript truthiness of a data option (`if (!childVal) …`). -/
def dTruthy : DataOption → Bool
  | .dnone => false
  | .dfn _ => true
  | .draw v => truthy v

/-- What `mergeDataOrFn` returns: one of the incoming options passed through
unchanged, or a freshly created closure (`mergedDataFn` /
`mergedInstanceDataFn`), modelled with the value a call to it returns. -/
inductive MergeResult where
  | passthrough (d : DataOption)
  | mergedFn (ret : JVal)

/-- Is the result a function value? -/
def isFunctionResult : MergeResult → Bool
  | .mergedFn _ => true
  | .passthrough d => match d with | .dfn _ => true | _ => false

/-- `mergeDataOrFn(parentVal, childVal, vm)`. -/
def mergeDataOrFn (parentVal childVal : DataOption) (vm : Bool) : MergeResult :=
  if !vm then
    -- in a Vue.extend merge: `if (!childVal) return parentVal` …
    if !(dTruthy childVal) then .passthrough parentVal
    else if !(dTruthy parentVal) then .passthrough childVal
    else .mergedFn (mergeData (invokeData childVal) (invokeData parentVal))
  else
    -- `mergedInstanceDataFn`
    .mergedFn
      (if truthy (invokeData childVal) then
        mergeData (invokeData childVal) (invokeData parentVal)
      else invokeData parentVal)

/-- Lexicographic comparison of key code points (for the normalizer). -/
def keyLt : List Char → List Char → Bool
  | [], [] => false
  | [], _ :: _ => true
  | _ :: _, [] => false
  | a :: as, b :: bs =>
    if a.toNat < b.toNat then true
    else if b.toNat < a.toNat then false
    else keyLt as bs

/-- Insertion of one field into a key-sorted sequence. -/
def insertF (k : String) (v : JVal) : JFields → JFields
  | .nilF => .consF k v .nilF
  | .consF k1 v1 rest =>
    if keyLt k.toList k1.toList then .consF k v (.consF k1 v1 rest)
    else .consF k1 v1 (insertF k v rest)

mutual

/-- Key-order normalization: two JS objects are the same data when they
agree up to the ordering of their keys. -/
def jNorm : JVal → JVal
  | .obj fs => .obj (normSort fs)
  | .undefined => .undefined
  | .jnull => .jnull
  | .jnum n => .jnum n
  | .jstr s => .jstr s
  | .jbool b => .jbool b
  | .leaf i => .leaf i

/-- Normalizes every field value and insertion-sorts the keys. -/
def normSort : JFields → JFields
  | .nilF => .nilF
  | .consF k v rest => insertF k (jNorm v) (normSort rest)

end

/-- The parent data factory of the claim's scenario:
a function returning `\x7b a: 1, b: \x7b x: 1 \x7d \x7d`. -/
def parentScenario : JVal :=
  .obj (.consF "a" (.jnum 1) (.consF "b" (.obj (.consF "x" (.jnum 1) .nilF)) .nilF))

/-- The child data factory of the claim's scenario:
a function returning `\x7b b: \x7b y: 2 \x7d, c: 3 \x7d`. -/
def childScenario : JVal :=
  .obj (.consF "b" (.obj (.consF "y" (.jnum 2) .nilF)) (.consF "c" (.jnum 3) .nilF))

/-- The instance data the claim expects:
`\x7b a: 1, b: \x7b x: 1, y: 2 \x7d, c: 3 \x7d`. -/
def expectedScenario : JVal :=
  .obj (.consF "a" (.jnum 1)
          (.consF "b" (.obj (.consF "x" (.jnum 1) (.consF "y" (.jnum 2) .nilF)))
            (.consF "c" (.jnum 3) .nilF)))

end VMerge

/-! ## `src/core/observer/array.js` — the seven intercepted mutators -/

namespace VArray

/-- What a `mutator` call records on the array's observer: `observeArray`
observing one inserted element, or `ob.dep.notify()`. -/
inductive AEvent where
  | observed (x : Nat)
  | notified
deriving DecidableEq, Repr

/-- One call to an intercepted method, with its arguments.  Elements are
opaque identities.  `splice` is modelled with both index arguments present
(`args.slice(2)` is the inserted items either way). -/
inductive ArrayOp where
  | push (items : List Nat)
  | pop
  | shift
  | unshift (items : List Nat)
  | splice (start : Int) (deleteCount : Int) (items : List Nat)
  | sort
  | reverse
deriving DecidableEq, Repr

/-- What the original `Array.prototype` method returns: a new length, a
removed element (or `undefined`), or an array. -/
inductive OpResult where
  | rlen (n : Nat)
  | relem (x : Option Nat)
  | rarr (xs : List Nat)
deriving DecidableEq, Repr

/-- `splice`'s start-index normalization (negative counts from the end,
clamped to `[0, len]`). -/
def spliceStart (start : Int) (len : Nat) : Nat :=
  if start < 0 then (max (len + start) 0).toNat else (min start len).toNat

/-- `splice`'s delete-count normalization (clamped to
`[0, len - actualStart]`). -/
def spliceDelete (deleteCount : Int) (start len : Nat) : Nat :=
  (min (max deleteCount 0) (len - start : Nat)).toNat

/-- `const original = arrayProto[method]; const result =
original.apply(this, args)`: the platform built-in (not repository code),
returning the mutated contents and the call's result.  `sortImpl` stands
for the engine's default sort (a permutation by string comparison), passed
in as a parameter. -/
def applyOriginal (sortImpl : List Nat → List Nat) :
    ArrayOp → List Nat → List Nat × OpResult
  | .push items, arr => (arr ++ items, .rlen (arr.length + items.length))
  | .pop, arr => (arr.dropLast, .relem arr.getLast?)
  | .shift, arr => (arr.tail, .relem arr.head?)
  | .unshift items, arr => (items ++ arr, .rlen (items.length + arr.length))
  | .splice start delc items, arr =>
    let s := spliceStart start arr.length
    let d := spliceDelete delc s arr.length
    (arr.take s ++ items ++ arr.drop (s + d), .rarr ((arr.drop s).take d))
  | .sort, arr => (sortImpl arr, .rarr (sortImpl arr))
  | .reverse, arr => (arr.reverse, .rarr arr.reverse)

/-- The `switch (method)` of the interceptor: `push`/`unshift` insert their
arguments, `splice` inserts `args.slice(2)`, the rest insert nothing
(`inserted` stays undefined, and an empty argument list makes
`observeArray` a no-op either way). -/
def insertedOf : ArrayOp → List Nat
  | .push items => items
  | .unshift items => items
  | .splice _ _ items => items
  | _ => []

/-- The `mutator` the interceptor installs for each of the seven methods:
run the original, observe the inserted elements, then `ob.dep.notify()`,
and return the original's result.  Yields (new contents, result, the
ordered observer events). -/
def mutator (sortImpl : List Nat → List Nat) (op : ArrayOp) (arr : List Nat) :
    List Nat × OpResult × List AEvent :=
  let r := applyOriginal sortImpl op arr
  (r.1, r.2, (insertedOf op).map AEvent.observed ++ [AEvent.notified])

end VArray

/-! ## `src/compiler/optimizer.js` (second half of the staged
`text-parser.js` file) — `markStatic` / `markStaticRoots` -/

namespace VOpt

/-- The fields of one AST node that the optimizer reads or writes.
`ntype` is the source's `type` (1 element, 2 interpolated text, 3 plain
text); `keysAreStatic` stands for `Object.keys(node).every(isStaticKey)`
(the node's own keys against the `genStaticKeys` set); `hasIf`/`hasFor`
are the truthiness of `node.if`/`node.for`; the three `Option Bool` marks
start out absent (`undefined`). -/
structure NodeData where
  ntype : Nat
  tag : String
  pre : Bool
  hasBindings : Bool
  hasIf : Bool
  hasFor : Bool
  once : Bool
  inlineTemplate : Bool
  keysAreStatic : Bool
  static : Option Bool
  staticRoot : Option Bool
  staticInFor : Option Bool
deriving DecidableEq, Repr

mutual

/-- An AST node: its scalar fields, its children, and the blocks of
`ifConditions[1..]` (entry 0 of `ifConditions` is the node itself in the
source and both optimizer loops start at index 1, so only the later blocks
are carried). -/
inductive ANode where
  | mk (d : NodeData) (children : NList) (ifBlocks : NList)

/-- A sequence of AST nodes. -/
inductive NList where
  | nilN
  | consN (n : ANode) (rest : NList)

end

/-- The scalar fields of a node. -/
def dataOf : ANode → NodeData
  | .mk d _ _ => d

/-- The children of a node. -/
def childrenOf : ANode → NList
  | .mk _ ch _ => ch

/-- `children.length`. -/
def lengthN : NList → Nat
  | .nilN => 0
  | .consN _ rest => lengthN rest + 1

/-- `children[0].type`. -/
def headTypeN : NList → Option Nat
  | .nilN => none
  | .consN n _ => some (dataOf n).ntype

/-- Modelled from the spec: `isBuiltInTag` of `shared/util` is not among
the staged sources; the spec lists the built-in tags as `slot` and
`component`. -/
def isBuiltInTag (t : String) : Bool := t = "slot" || t = "component"

/-- `isStatic(node)`.  `tplFor` is the value of
`isDirectChildOfTemplateFor(node)`: whether the parent chain, while it
consists of `template` tags, reaches one with `v-for` — computed top-down
during the walk (see `markStatic`). -/
def isStaticNode (reserved : String → Bool) (tplFor : Bool) (d : NodeData) :
    Bool :=
  if d.ntype = 2 then false
  else if d.ntype = 3 then true
  else
    d.pre ||
      (!d.hasBindings && !d.hasIf && !d.hasFor && !(isBuiltInTag d.tag) &&
        reserved d.tag && !tplFor && d.keysAreStatic)

/-- `child.static` truthiness after a pass (`undefined` reads as false). -/
def staticTruthy : Option Bool → Bool
  | some b => b
  | none => false

/-- Does the list hold a node whose `static` mark is not truthy? -/
def anyNonStaticL : NList → Bool
  | .nilN => false
  | .consN n rest => !(staticTruthy (dataOf n).static) || anyNonStaticL rest

mutual

/-- Pass 1, `markStatic(node)`.  `tplFor` is
`isDirectChildOfTemplateFor(node)`; a child's value is recomputed from this
node (its parent): a non-`template` parent stops the walk, a `template`
parent with `v-for` answers yes, and a `template` parent without one defers
to its own parent chain — this node's `tplFor`.  The blocks of
`ifConditions` share this node's parent, so they inherit its `tplFor`. -/
def markStatic (reserved : String → Bool) (tplFor : Bool) : ANode → ANode
  | .mk d ch ifb =>
    let s := isStaticNode reserved tplFor d
    if d.ntype = 1 then
      -- do not make component slot content static
      if !(reserved d.tag) && d.tag ≠ "slot" && !d.inlineTemplate then
        .mk { d with static := some s } ch ifb
      else
        let childTplFor :=
          if d.tag ≠ "template" then false
          else if d.hasFor then true
          else tplFor
        let ch2 := markStaticL reserved childTplFor ch
        let ifb2 := markStaticL reserved tplFor ifb
        let s2 := s && !(anyNonStaticL ch2) && !(anyNonStaticL ifb2)
        .mk { d with static := some s2 } ch2 ifb2
    else .mk { d with static := some s } ch ifb

/-- `markStatic` over a node sequence. -/
def markStaticL (reserved : String → Bool) (tplFor : Bool) : NList → NList
  | .nilN => .nilN
  | .consN n rest =>
    .consN (markStatic reserved tplFor n) (markStaticL reserved tplFor rest)

end

mutual

/-- The `staticInFor` update at the top of `markStaticRoots`
(`if (node.static || node.once) node.staticInFor = isInFor`). -/
def withSIF (d : NodeData) (isInFor : Bool) : NodeData :=
  if staticTruthy d.static || d.once then { d with staticInFor := some isInFor }
  else d

/-- Pass 2, `markStaticRoots(node, isInFor)`. -/
def markStaticRoots (isInFor : Bool) : ANode → ANode
  | .mk d ch ifb =>
    if d.ntype = 1 then
      let d1 := withSIF d isInFor
      if staticTruthy d1.static && lengthN ch ≠ 0 &&
          !(lengthN ch = 1 && headTypeN ch == some 3) then
        .mk { d1 with staticRoot := some true } ch ifb
      else
        let ch2 := markStaticRootsL (isInFor || d.hasFor) ch
        let ifb2 := markStaticRootsL isInFor ifb
        .mk { d1 with staticRoot := some false } ch2 ifb2
    else .mk d ch ifb

/-- `markStaticRoots` over a node sequence. -/
def markStaticRootsL (isInFor : Bool) : NList → NList
  | .nilN => .nilN
  | .consN n rest =>
    .consN (markStaticRoots isInFor n) (markStaticRootsL isInFor rest)

end

/-- `optimize(root, options)` on a present root: the two passes (the
`staticKeys`/`isReservedTag` options are the `reserved` parameter and the
`keysAreStatic` field). -/
def optimize (reserved : String → Bool) (root : ANode) : ANode :=
  markStaticRoots false (markStatic reserved false root)

mutual

/-- Every node of a tree: the node itself, then those of its children and
if-blocks. -/
def allNodes : ANode → List ANode
  | .mk d ch ifb => .mk d ch ifb :: (allNodesL ch ++ allNodesL ifb)

/-- Every node under a sequence. -/
def allNodesL : NList → List ANode
  | .nilN => []
  | .consN n rest => allNodes n ++ allNodesL rest

end

/-- The static-root shape the claim asserts: the node is static, has at
least one child, and does not have a single plain-text child as its only
child. -/
def goodStaticRoot (n : ANode) : Prop :=
  (dataOf n).static = some true ∧ 1 ≤ lengthN (childrenOf n) ∧
    ¬(lengthN (childrenOf n) = 1 ∧ headTypeN (childrenOf n) = some 3)

/-- A plain-text node (type 3) with no marks. -/
def demoText : ANode :=
  .mk ⟨3, "", false, false, false, false, false, false, true, none, none, none⟩
    .nilN .nilN

/-- A reserved element node with two plain-text children and no marks. -/
def demoRoot : ANode :=
  .mk ⟨1, "div", false, false, false, false, false, false, true, none, none, none⟩
    (.consN demoText (.consN demoText .nilN)) .nilN

/-- A platform-reserved-tag test recognizing only `div`. -/
def demoReserved : String → Bool := fun t => t = "div"

end VOpt

/-! ## `src/core/observer/index.js` — `set` / `del` -/

namespace VSet

/-- A JavaScript value as `set`/`del` receive it: `undefined`, `null`, an
opaque primitive (number/string/boolean/symbol), or a reference into the
heap.  String targets with own index keys are outside the model. -/
inductive SVal where
  | undefined
  | snull
  | prim (id : Nat)
  | ref (oid : Nat)
deriving DecidableEq, Repr

/-- The `key` argument: a string or a number. -/
inductive SKey where
  | kstr (s : String)
  | knum (n : Int)
deriving DecidableEq, Repr

/-- One own named property: its value and whether `defineReactive`
installed an accessor pair for it. -/
structure Field where
  value : SVal
  reactive : Bool
deriving DecidableEq, Repr

/-- One heap object: a plain object or an array, its own properties, the
`_isVue` sentinel and the `__ob__` observer (an observer id; the observer's
dep shares that identity). -/
structure ObjData where
  isArray : Bool
  elems : List SVal
  fields : List (String × Field)
  isVue : Bool
  observer : Option Nat
deriving DecidableEq, Repr

/-- An observer record (`vmCount` counts the vms holding the object as root
`$data`). -/
structure Obs where
  vmCount : Nat
deriving DecidableEq, Repr

/-- The heap. -/
structure SState where
  objs : List (Nat × ObjData)
  obsTable : List (Nat × Obs)
deriving DecidableEq, Repr

/-- What a call records: development warnings, `observe(v)` of an inserted
or newly set value, an `ob.dep.notify()`, or a reactive property dep's
`notify()`. -/
inductive SEvent where
  | warnDev (msg : String)
  | observedVal (v : SVal)
  | notifyObsDep (obId : Nat)
  | notifyPropDep (oid : Nat) (key : String)
deriving DecidableEq, Repr

/-- A thrown JavaScript exception. -/
inductive JsError where
  | typeError (msg : String)
deriving DecidableEq, Repr

/-- `isUndef(target) || isPrimitive(target)` — both helpers live in
`shared/util`, which is not among the staged sources; modelled from the
spec's "undefined, null, or primitive" wording. -/
def targetInvalid : SVal → Bool
  | .undefined => true
  | .snull => true
  | .prim _ => true
  | .ref _ => false

/-- Modelled from the spec: `isValidArrayIndex` of `shared/util` is not
among the staged sources; the spec's "valid index" is a finite non-negative
integer (or its plain decimal string — exotic numeric strings are outside
the model). -/
def isValidArrayIndex : SKey → Bool
  | .knum n => 0 ≤ n
  | .kstr s => s ≠ "" && s.toList.all Char.isDigit

/-- The numeric value of a valid index key. -/
def keyIndex : SKey → Nat
  | .knum n => n.toNat
  | .kstr s => s.toNat!

/-- The property name a key denotes. -/
def keyStr : SKey → String
  | .kstr s => s
  | .knum n => toString n

/-- The own members of `Object.prototype` (platform). -/
def objectProtoHas (k : String) : Bool :=
  k = "constructor" || k = "hasOwnProperty" || k = "isPrototypeOf" ||
  k = "propertyIsEnumerable" || k = "toLocaleString" || k = "toString" ||
  k = "valueOf" || k = "__defineGetter__" || k = "__defineSetter__" ||
  k = "__lookupGetter__" || k = "__lookupSetter__" || k = "__proto__"

/-- A few own members of `Array.prototype` (platform; enough for `key in`
on arrays with ordinary keys). -/
def arrayProtoHas (k : String) : Bool :=
  k = "push" || k = "pop" || k = "shift" || k = "unshift" || k = "splice" ||
  k = "sort" || k = "reverse" || k = "concat" || k = "join" || k = "slice" ||
  k = "indexOf" || k = "forEach" || k = "map" || k = "filter"

/-- Own-field lookup. -/
def getField (o : ObjData) (k : String) : Option Field :=
  (o.fields.find? (fun p => p.1 = k)).map (·.2)

/-- `key in target` for a heap object (own properties, array indices and
`length`, and the prototype chain of plain literals / arrays). -/
def keyIn (o : ObjData) (key : SKey) : Bool :=
  (getField o (keyStr key)).isSome ||
    (if o.isArray then
      (isValidArrayIndex key && keyIndex key < o.elems.length) ||
        keyStr key = "length" || arrayProtoHas (keyStr key) ||
        objectProtoHas (keyStr key)
    else objectProtoHas (keyStr key))

/-- Heap lookup. -/
def lookupObj (st : SState) (oid : Nat) : Option ObjData :=
  (st.objs.find? (fun p => p.1 = oid)).map (·.2)

/-- Observer lookup. -/
def lookupObs (st : SState) (obId : Nat) : Option Obs :=
  (st.obsTable.find? (fun p => p.1 = obId)).map (·.2)

/-- Heap update. -/
def updateObj (st : SState) (oid : Nat) (o : ObjData) : SState :=
  ⟨st.objs.map (fun p => if p.1 = oid then (p.1, o) else p), st.obsTable⟩

/-- `ob && ob.vmCount` — the root-`$data` test of `set`/`del`. -/
def isRootData (st : SState) (o : ObjData) : Bool :=
  match o.observer with
  | some obId =>
    match lookupObs st obId with
    | some ob => ob.vmCount ≠ 0
    | none => false
  | none => false

/-- Replace an own field's stored value, keeping its position and accessor
flag. -/
def setFieldValue (fs : List (String × Field)) (k : String) (v : SVal) :
    List (String × Field) :=
  fs.map (fun p => if p.1 = k then (p.1, ⟨v, p.2.reactive⟩) else p)

/-- `target[key] = val` on an existing own property: through the reactive
setter when one is installed (identity short-circuit, re-observe, property
dep notify), plain assignment otherwise. -/
def assignExisting (oid : Nat) (o : ObjData) (k : String) (v : SVal) :
    ObjData × List SEvent :=
  match getField o k with
  | some f =>
    if f.reactive then
      if v = f.value then (o, [])
      else
        ({ o with fields := setFieldValue o.fields k v },
         [.observedVal v, .notifyPropDep oid k])
    else ({ o with fields := setFieldValue o.fields k v }, [])
  | none => ({ o with fields := o.fields ++ [(k, ⟨v, false⟩)] }, [])

/-- `target.length = Math.max(target.length, key); target.splice(key, 1,
val)`: replace in range, extend (holes read as `undefined`) and append past
the end. -/
def setIdx (l : List SVal) (n : Nat) (v : SVal) : List SVal :=
  if n < l.length then l.set n v
  else (l ++ List.replicate (n - l.length) .undefined) ++ [v]

/-- `set(target, key, val)`.  Returns the state and observer events up to
the outcome, and the outcome itself: the returned value, or the exception
the call ends in.  Development mode is assumed (warnings fire). -/
def jsSet (st : SState) (target : SVal) (key : SKey) (val : SVal) :
    SState × List SEvent × Except JsError SVal :=
  -- `isUndef(target) || isPrimitive(target)` → dev warning (no early return)
  let ev0 : List SEvent :=
    if targetInvalid target then [.warnDev "cannot-set-on-primitive"] else []
  match target with
  | .ref oid =>
    match lookupObj st oid with
    | none => (st, ev0, .error (.typeError "dangling-reference"))
    | some o =>
      if o.isArray && isValidArrayIndex key then
        let n := keyIndex key
        let o2 := { o with elems := setIdx o.elems n val }
        -- the splice is the intercepted mutator iff the array is observed
        let ev :=
          match o.observer with
          | some obId => [SEvent.observedVal val, SEvent.notifyObsDep obId]
          | none => []
        (updateObj st oid o2, ev0 ++ ev, .ok val)
      else if keyIn o key && !(objectProtoHas (keyStr key)) then
        let r := assignExisting oid o (keyStr key) val
        (updateObj st oid r.1, ev0 ++ r.2, .ok val)
      else if o.isVue || isRootData st o then
        (st, ev0 ++ [.warnDev "avoid-adding-to-vue-instance"], .ok val)
      else
        match o.observer with
        | none =>
          -- `if (!ob)`: plain `target[key] = val; return val`
          let o2 := { o with fields := o.fields ++ [(keyStr key, ⟨val, false⟩)] }
          (updateObj st oid o2, ev0, .ok val)
        | some obId =>
          -- `defineReactive(ob.value, key, val); ob.dep.notify()`
          let o2 := { o with fields := o.fields ++ [(keyStr key, ⟨val, true⟩)] }
          (updateObj st oid o2,
           ev0 ++ [.observedVal val, .notifyObsDep obId], .ok val)
  | _ =>
    -- `Array.isArray` is false; `key in target` throws on a non-object
    (st, ev0, .error (.typeError "cannot-use-in-operator-on-non-object"))

/-- Removal of an own field. -/
def removeField (fs : List (String × Field)) (k : String) :
    List (String × Field) :=
  fs.filter (fun p => p.1 ≠ k)

/-- `del(target, key)`: as `jsSet`, with outcome `undefined` on a normal
return.  A primitive target survives every step (`.__ob__` reads
`undefined` through boxing, `hasOwn` is false for the modelled keys), but
`undefined`/`null` throw at the `target.__ob__` read. -/
def jsDel (st : SState) (target : SVal) (key : SKey) :
    SState × List SEvent × Except JsError SVal :=
  let ev0 : List SEvent :=
    if targetInvalid target then [.warnDev "cannot-delete-on-primitive"] else []
  match target with
  | .ref oid =>
    match lookupObj st oid with
    | none => (st, ev0, .error (.typeError "dangling-reference"))
    | some o =>
      if o.isArray && isValidArrayIndex key then
        -- `target.splice(key, 1)` — intercepted iff observed
        let n := keyIndex key
        let o2 := { o with elems := o.elems.take n ++ o.elems.drop (n + 1) }
        let ev :=
          match o.observer with
          | some obId => [SEvent.notifyObsDep obId]
          | none => []
        (updateObj st oid o2, ev0 ++ ev, .ok .undefined)
      else if o.isVue || isRootData st o then
        (st, ev0 ++ [.warnDev "avoid-deleting-on-vue-instance"], .ok .undefined)
      else if (getField o (keyStr key)).isSome = false then
        (st, ev0, .ok .undefined)
      else
        let o2 := { o with fields := removeField o.fields (keyStr key) }
        match o.observer with
        | none => (updateObj st oid o2, ev0, .ok .undefined)
        | some obId =>
          (updateObj st oid o2, ev0 ++ [.notifyObsDep obId], .ok .undefined)
  | .prim _ => (st, ev0, .ok .undefined)
  | _ => (st, ev0, .error (.typeError "cannot-read-ob-of-nullish"))

end VSet

/-! ## `src/core/observer/index.js` — `observe` / `Observer` -/

namespace VObs

/-- A value `observe` may receive: an opaque primitive (not an object) or a
heap reference. -/
inductive OVal where
  | prim
  | ref (oid : Nat)
deriving DecidableEq, Repr

/-- One own property: its value, its enumerability (`Object.keys` walks only
enumerable keys), and whether `defineReactive` has installed an accessor. -/
structure OField where
  value : OVal
  enumerable : Bool
  reactive : Bool
deriving DecidableEq, Repr

/-- The `__ob__` property when present: the attached value's identity,
whether it is an `Observer` instance, and the property's enumerability
(`def` installs it non-enumerable). -/
structure ObMark where
  obId : Nat
  isObserver : Bool
  enumerable : Bool
deriving DecidableEq, Repr

/-- One heap object with the classification flags `observe` reads. -/
structure OObj where
  isArray : Bool
  elems : List OVal
  fields : List (String × OField)
  isPlain : Bool
  isVNode : Bool
  isVue : Bool
  extensible : Bool
  ob : Option ObMark
deriving DecidableEq, Repr

/-- The heap, the fresh-observer counter, the global `shouldObserve` toggle,
`isServerRendering()`, and each observer's `vmCount`. -/
structure OState where
  objs : List (Nat × OObj)
  obsCount : Nat
  shouldObserve : Bool
  ssr : Bool
  vmCounts : List (Nat × Nat)
deriving DecidableEq, Repr

/-- Heap lookup. -/
def lookupO (st : OState) (oid : Nat) : Option OObj :=
  (st.objs.find? (fun p => p.1 = oid)).map (·.2)

/-- The `__ob__` mark of a heap object. -/
def markOf (st : OState) (oid : Nat) : Option ObMark :=
  (lookupO st oid).bind (·.ob)

/-- Heap update. -/
def updateO (st : OState) (oid : Nat) (o : OObj) : OState :=
  { st with objs := st.objs.map (fun p => if p.1 = oid then (p.1, o) else p) }

/-- `def(value, '__ob__', this)`: installs the non-enumerable `__ob__`. -/
def setMark (st : OState) (oid : Nat) (obId : Nat) : OState :=
  match lookupO st oid with
  | some o => updateO st oid { o with ob := some ⟨obId, true, false⟩ }
  | none => st

/-- `defineReactive`'s accessor installation on one key (the value part of
the walk — `observe(val)` — is performed by the caller). -/
def setReactive (st : OState) (oid : Nat) (k : String) : OState :=
  match lookupO st oid with
  | some o =>
    updateO st oid
      { o with fields :=
          o.fields.map (fun p =>
            if p.1 = k then (p.1, ⟨p.2.value, p.2.enumerable, true⟩) else p) }
  | none => st

/-- `ob.vmCount++` for `asRootData`. -/
def bumpVm (st : OState) (obId : Nat) : OState :=
  { st with vmCounts :=
      st.vmCounts.map (fun p => if p.1 = obId then (p.1, p.2 + 1) else p) }

/-- `Object.keys(obj)`: the own enumerable keys. -/
def enumKeys (o : OObj) : List String :=
  (o.fields.filter (fun p => p.2.enumerable)).map (·.1)

/-- The classification guard of the `else if (shouldObserve && …)` arm. -/
def canObserve (st : OState) (o : OObj) : Bool :=
  st.shouldObserve && !st.ssr && (o.isArray || o.isPlain) &&
    o.extensible && !o.isVue

/-- `new Observer(value)` (plus the `asRootData` bump): the constructor
installs `__ob__` first (`def`), then walks — `observeArray` for arrays,
`walk`/`defineReactive` for plain objects; the two walkers are passed in
(they are `observeMany`/`walkFields` one fuel step down). -/
def createWith (walkArr : OState → List OVal → OState)
    (walkObj : OState → Nat → List String → OState)
    (st : OState) (oid : Nat) (o : OObj) (asRoot : Bool) :
    Option Nat × OState :=
  if canObserve st o then
    let obId := st.obsCount
    let st1 := setMark
      { st with obsCount := st.obsCount + 1,
                vmCounts := st.vmCounts ++ [(obId, 0)] } oid obId
    let st2 := if o.isArray then walkArr st1 o.elems else walkObj st1 oid (enumKeys o)
    (some obId, if asRoot then bumpVm st2 obId else st2)
  else (none, st)

mutual

/-- `observe(value, asRootData)`.  Fuel-indexed: every recursive call burns
one unit, so any fuel larger than the number of reachable subobjects plus
walked keys makes the exhaustion branch unreachable; the theorems quantify
over the fuel.  Returns the observer (id) and the new state. -/
def observeF : Nat → OState → OVal → Bool → Option Nat × OState
  | 0, st, _, _ => (none, st)
  | _ + 1, st, .prim, _ => (none, st)
  | fuel + 1, st, .ref oid, asRoot =>
    match lookupO st oid with
    | none => (none, st)
    | some o =>
      if o.isVNode then (none, st)
      else
        match o.ob with
        | some m =>
          if m.isObserver then
            (some m.obId, if asRoot then bumpVm st m.obId else st)
          else
            createWith (observeMany fuel) (walkFields fuel) st oid o asRoot
        | none =>
          createWith (observeMany fuel) (walkFields fuel) st oid o asRoot

/-- `observeArray`: observe each element. -/
def observeMany : Nat → OState → List OVal → OState
  | 0, st, _ => st
  | _ + 1, st, [] => st
  | fuel + 1, st, v :: rest =>
    observeMany fuel (observeF fuel st v false).2 rest

/-- `walk`: `defineReactive(obj, key)` for each own enumerable key —
observe the held value, then install the accessor. -/
def walkFields : Nat → OState → Nat → List String → OState
  | 0, st, _, _ => st
  | _ + 1, st, _, [] => st
  | fuel + 1, st, oid, k :: rest =>
    let st1 :=
      match lookupO st oid with
      | some o =>
        match (o.fields.find? (fun p => p.1 = k)).map (·.2) with
        | some f => setReactive (observeF fuel st f.value false).2 oid k
        | none => st
      | none => st
    walkFields fuel st1 oid rest

end

/-- The invariant threaded through the observe walk: an already-installed
`Observer` mark (`value.__ob__ instanceof Observer`) is never replaced, and
the carrying object's VNode classification never changes. -/
def MarkKept (st st2 : OState) (oid : Nat) : Prop :=
  ∀ o m, lookupO st oid = some o → o.ob = some m → m.isObserver = true →
    ∃ o2, lookupO st2 oid = some o2 ∧ o2.ob = some m ∧ o2.isVNode = o.isVNode

/-- A concrete heap for witnesses: one plain, extensible, not-yet-observed
object holding a single enumerable primitive field `a`. -/
def st0demo : OState :=
  ⟨[(0, ⟨false, [], [("a", ⟨.prim, true, false⟩)], true, false, false, true,
      none⟩)], 0, true, false, []⟩

end VObs

namespace VHTML

/-- Characters of the template string; `html`/`rest`/`text` in the source. -/
abbrev Chars := List Char

/-- JS regex `\s` over the ASCII range (space, tab, LF, VT, FF, CR). -/
def isWSC (c : Char) : Bool :=
  c = ' ' || c = '\t' || c = '\n' || c.toNat = 11 || c.toNat = 12 || c = '\r'

/-- ASCII lower-casing, for the case-insensitive regexes and
`String.prototype.toLowerCase` on tag names. -/
def toLowerC (c : Char) : Char :=
  if 'A' ≤ c && c ≤ 'Z' then Char.ofNat (c.toNat + 32) else c

def lowerS (s : Chars) : Chars := s.map toLowerC

/-- Modelled from the spec: the "Unicode-aware name regex"
(`unicodeRegExp`, core/util/lang.js, not under src/) extends the ASCII name
characters with non-ASCII letter ranges; modelled as all non-ASCII code
points.  The template of the claim is pure ASCII, so this class is never
consulted on it. -/
def uniExtra (c : Char) : Bool := 127 < c.toNat

/-- First character of `ncname`: `[a-zA-Z_]`. -/
def ncnameStart (c : Char) : Bool :=
  ('a' ≤ c && c ≤ 'z') || ('A' ≤ c && c ≤ 'Z') || c = '_'

/-- Tail characters of `ncname`: `[\-\.0-9_a-zA-Z…unicode…]`. -/
def ncnameTail (c : Char) : Bool :=
  ncnameStart c || c = '-' || c = '.' || ('0' ≤ c && c ≤ '9') || uniExtra c

/-- `pat` is a prefix of `s`. -/
def startsWith : Chars → Chars → Bool
  | [], _ => true
  | _ :: _, [] => false
  | p :: ps, c :: cs => p = c && startsWith ps cs

/-- Case-insensitive prefix, for the `i`-flagged regexes. -/
def startsWithCI (pat s : Chars) : Bool :=
  startsWith (lowerS pat) (lowerS s)

/-- `String.prototype.indexOf` of a substring, from offset `k`. -/
def indexOfSubGo (needle : Chars) : Chars → Nat → Option Nat
  | [], k => if startsWith needle [] then some k else none
  | c :: cs, k =>
    if startsWith needle (c :: cs) then some k else indexOfSubGo needle cs (k + 1)

def indexOfSub (needle s : Chars) : Option Nat := indexOfSubGo needle s 0

/-- `ncname` match: maximal munch, returns (matched, rest). -/
def matchNcname : Chars → Option (Chars × Chars)
  | [] => none
  | c :: rest =>
    if ncnameStart c then
      let p := List.span ncnameTail rest
      some (c :: p.1, p.2)
    else none

/-- `qnameCapture` = `((?:ncname\:)?ncname)`: the optional prefixed part is
tried first and backtracks to the bare `ncname` when no `ncname` follows the
colon. -/
def matchQname (s : Chars) : Option (Chars × Chars) :=
  match matchNcname s with
  | none => none
  | some (n1, r1) =>
    match r1 with
    | ':' :: r2 =>
      match matchNcname r2 with
      | some (n2, r3) => some (n1 ++ ':' :: n2, r3)
      | none => some (n1, r1)
    | _ => some (n1, r1)

/-- `startTagOpen` = `^<qnameCapture`: returns (tag name, match length). -/
def matchStartTagOpen (s : Chars) : Option (Chars × Nat) :=
  match s with
  | '<' :: r =>
    match matchQname r with
    | some (n, _) => some (n, 1 + n.length)
    | none => none
  | _ => none

/-- `endTag` = `^<\/qnameCapture[^>]*>`: returns (tag name, match length). -/
def matchEndTag (s : Chars) : Option (Chars × Nat) :=
  match s with
  | '<' :: '/' :: r =>
    match matchQname r with
    | some (n, r2) =>
      let p := List.span (fun c => !(c = '>')) r2
      match p.2 with
      | '>' :: _ => some (n, 2 + n.length + p.1.length + 1)
      | _ => none
    | none => none
  | _ => none

/-- `startTagClose` = `^\s*(\/?)>`: returns (unary slash present, length). -/
def matchStartTagClose (s : Chars) : Option (Bool × Nat) :=
  let p := List.span isWSC s
  match p.2 with
  | '/' :: '>' :: _ => some (true, p.1.length + 2)
  | '>' :: _ => some (false, p.1.length + 1)
  | _ => none

/-- `doctype` = `^<!DOCTYPE [^>]+>` (case-insensitive): match length. -/
def matchDoctype (s : Chars) : Option Nat :=
  if startsWithCI ("<!DOCTYPE ".toList) s then
    let r := s.drop 10
    let p := List.span (fun c => !(c = '>')) r
    if p.1 = [] then none
    else
      match p.2 with
      | '>' :: _ => some (10 + p.1.length + 1)
      | _ => none
  else none

def quoteD : Char := '"'

def quoteS : Char := Char.ofNat 39

/-- Attribute-name characters: `[^\s"'<>\/=]`. -/
def attrNameChar (c : Char) : Bool :=
  !(isWSC c || c = quoteD || c = quoteS || c = '<' || c = '>' || c = '/' ||
    c = '=')

/-- Unquoted attribute-value characters: ``[^\s"'=<>`]``. -/
def unqChar (c : Char) : Bool :=
  !(isWSC c || c = quoteD || c = quoteS || c = '=' || c = '<' || c = '>' ||
    c.toNat = 96)

/-- The optional value part shared by `attribute` and `dynamicArgAttribute`:
`(?:\s*(=)\s*(?:"([^"]*)"+|'([^']*)'+|([^\s"'=<>`]+)))?`.  Returns (consumed
length, value); a failing group backtracks to consuming nothing, and an
absent value yields `''` (as does `args[3] || args[4] || args[5] || ''`). -/
def matchAttrValue (r2 : Chars) : Nat × Chars :=
  let pw2 := List.span isWSC r2
  match pw2.2 with
  | '=' :: r4 =>
    let pw3 := List.span isWSC r4
    match pw3.2 with
    | c :: r6 =>
      if c = quoteD then
        let pv := List.span (fun x => !(x = quoteD)) r6
        let q := (List.span (fun x => x = quoteD) pv.2).1
        if q = [] then (0, [])
        else (pw2.1.length + 1 + pw3.1.length + 1 + pv.1.length + q.length,
          pv.1)
      else if c = quoteS then
        let pv := List.span (fun x => !(x = quoteS)) r6
        let q := (List.span (fun x => x = quoteS) pv.2).1
        if q = [] then (0, [])
        else (pw2.1.length + 1 + pw3.1.length + 1 + pv.1.length + q.length,
          pv.1)
      else
        let pv := List.span unqChar pw3.2
        if pv.1 = [] then (0, [])
        else (pw2.1.length + 1 + pw3.1.length + pv.1.length, pv.1)
    | [] => (0, [])
  | _ => (0, [])

/-- `attribute` = `^\s*([^\s"'<>\/=]+)` + optional value: returns (match
length, name, value). -/
def matchAttribute (s : Chars) : Option (Nat × Chars × Chars) :=
  let pw := List.span isWSC s
  let pn := List.span attrNameChar pw.2
  if pn.1 = [] then none
  else
    let v := matchAttrValue pn.2
    some (pw.1.length + pn.1.length + v.1, pn.1, v.2)

/-- `\w` = `[A-Za-z0-9_]`. -/
def wordChar (c : Char) : Bool := ncnameStart c || ('0' ≤ c && c ≤ '9')

/-- The directive head of `dynamicArgAttribute`:
`(?:v-[\w-]+:|@|:|#)`, returning (matched, rest). -/
def matchDynHead : Chars → Option (Chars × Chars)
  | '@' :: rest => some (['@'], rest)
  | ':' :: rest => some ([':'], rest)
  | '#' :: rest => some (['#'], rest)
  | 'v' :: '-' :: rest =>
    let p := List.span (fun c => wordChar c || c = '-') rest
    if p.1 = [] then none
    else
      match p.2 with
      | ':' :: r3 => some ('v' :: '-' :: p.1 ++ [':'], r3)
      | _ => none
  | _ => none

/-- Index of the last `]` in `l`, if any. -/
def lastBracket (l : Chars) : Option Nat :=
  match indexOfSub [']'] l.reverse with
  | some k => some (l.length - 1 - k)
  | none => none

/-- `dynamicArgAttribute` =
`^\s*((?:v-[\w-]+:|@|:|#)\[[^=]+\][^\s"'<>\/=]*)` + optional value: the
greedy `[^=]+` backtracks to the last `]` before the first `=`. -/
def matchDynamicArgAttribute (s : Chars) : Option (Nat × Chars × Chars) :=
  let pw := List.span isWSC s
  match matchDynHead pw.2 with
  | none => none
  | some (hd, r2) =>
    match r2 with
    | '[' :: r3 =>
      let chunk := (List.span (fun c => !(c = '=')) r3).1
      match lastBracket chunk with
      | some j =>
        if j = 0 then none
        else
          let inner := chunk.take j
          let afterB := chunk.drop (j + 1) ++ r3.drop chunk.length
          let tl := (List.span attrNameChar afterB).1
          let name := hd ++ '[' :: inner ++ ']' :: tl
          let v := matchAttrValue (afterB.drop tl.length)
          some (pw.1.length + name.length + v.1, name, v.2)
      | none => none
    | _ => none

/-- `decodeAttr`: global replacement of the encoded entities of
`decodingMap`; `&#10;`/`&#9;` only when `shouldDecodeNewlines`. -/
def decodeAttr (nl : Bool) : Chars → Chars
  | [] => []
  | '&' :: 'l' :: 't' :: ';' :: rest => '<' :: decodeAttr nl rest
  | '&' :: 'g' :: 't' :: ';' :: rest => '>' :: decodeAttr nl rest
  | '&' :: 'q' :: 'u' :: 'o' :: 't' :: ';' :: rest => quoteD :: decodeAttr nl rest
  | '&' :: 'a' :: 'm' :: 'p' :: ';' :: rest => '&' :: decodeAttr nl rest
  | '&' :: '#' :: '3' :: '9' :: ';' :: rest => quoteS :: decodeAttr nl rest
  | '&' :: '#' :: '1' :: '0' :: ';' :: rest =>
    if nl then '\n' :: decodeAttr nl rest
    else '&' :: decodeAttr nl ('#' :: '1' :: '0' :: ';' :: rest)
  | '&' :: '#' :: '9' :: ';' :: rest =>
    if nl then '\t' :: decodeAttr nl rest
    else '&' :: decodeAttr nl ('#' :: '9' :: ';' :: rest)
  | c :: rest => c :: decodeAttr nl rest

/-- Modelled from the spec: `makeMap('script,style,textarea', true)` —
`makeMap` lives in shared/util (not under src/); the member list and the
lower-casing of the argument are those of the source call. -/
def isPlainTextElement (s : Chars) : Bool :=
  lowerS s = "script".toList || lowerS s = "style".toList ||
    lowerS s = "textarea".toList

/-- Modelled from the spec: `makeMap('pre,textarea', true)` (shared/util). -/
def isIgnoreNewlineTag (s : Chars) : Bool :=
  lowerS s = "pre".toList || lowerS s = "textarea".toList

/-- `shouldIgnoreFirstNewline(tag, html)`. -/
def shouldIgnoreFirstNewline (tag : Chars) (html : Chars) : Bool :=
  !(tag = []) && isIgnoreNewlineTag tag && html.head? = some '\n'

/-- The parser options and the imported classifier environment:
`isUnaryTag`/`canBeLeftOpenTag` default to `no` when absent, and
`isNonPhrasingTag` (imported from web/compiler/util, not under src/) is a
parameter; `dev` is `process.env.NODE_ENV !== 'production'`, and the
`has*` flags model the presence of the corresponding option hooks. -/
structure HOpts where
  expectHTML : Bool
  isUnaryTag : Chars → Bool
  canBeLeftOpenTag : Chars → Bool
  isNonPhrasingTag : Chars → Bool
  shouldKeepComment : Bool
  shouldDecodeNewlines : Bool
  shouldDecodeNewlinesForHref : Bool
  dev : Bool
  hasStart : Bool
  hasEnd : Bool
  hasChars : Bool
  hasWarn : Bool

/-- The emitted hook calls, in order.  `chars` carries its two position
arguments when the call site passes them; the two warn shapes stand for the
"no matching end tag" and "Mal-formatted tag at end of template" messages. -/
inductive HEvent where
  | start (tag : Chars) (attrs : List (Chars × Chars)) (unary : Bool)
      (s e : Nat)
  | chars (text : Chars) (s e : Option Nat)
  | comment (text : Chars) (s e : Nat)
  | endT (tag : Chars) (s e : Nat)
  | warnNoMatch (tag : Chars)
  | warnMalformed (html : Chars)
deriving DecidableEq, Repr

/-- One entry of the open-tag `stack`. -/
structure StackEntry where
  tag : Chars
  lowerCasedTag : Chars
  start : Nat
  endPos : Nat
deriving DecidableEq, Repr

/-- The mutable locals of `parseHTML`: `html`, `index`, `stack`,
`lastTag` (`none` for the falsy `undefined`/`0`).  The stack top is the
list head. -/
structure HSt where
  html : Chars
  index : Nat
  stack : List StackEntry
  lastTag : Option Chars
deriving Repr

/-- `advance(n)`. -/
def advanceH (st : HSt) (n : Nat) : HSt :=
  { st with html := st.html.drop n, index := st.index + n }

/-- The result of `parseStartTag`'s successful return value. -/
structure StartTagMatch where
  tagName : Chars
  attrs : List (Chars × Chars)
  start : Nat
  unarySlash : Bool
  endPos : Nat
deriving DecidableEq, Repr

/-- The attribute-collecting `while` of `parseStartTag`; on failure the
consumed input stays consumed (the JS `advance` mutations persist even when
`parseStartTag` returns `undefined`). -/
def psLoop : Nat → HSt → List (Chars × Chars) →
    Option (Bool × List (Chars × Chars)) × HSt
  | 0, st, _ => (none, st)
  | fuel + 1, st, acc =>
    match matchStartTagClose st.html with
    | some (slash, len) => (some (slash, acc.reverse), advanceH st len)
    | none =>
      match matchDynamicArgAttribute st.html with
      | some (len, n, v) => psLoop fuel (advanceH st len) ((n, v) :: acc)
      | none =>
        match matchAttribute st.html with
        | some (len, n, v) => psLoop fuel (advanceH st len) ((n, v) :: acc)
        | none => (none, st)

/-- `parseStartTag()`. -/
def parseStartTag (st : HSt) : Option StartTagMatch × HSt :=
  match matchStartTagOpen st.html with
  | none => (none, st)
  | some (tag, len) =>
    let startIdx := st.index
    let st1 := advanceH st len
    match psLoop (st1.html.length + 1) st1 [] with
    | (none, st2) => (none, st2)
    | (some (slash, attrs), st2) =>
      (some ⟨tag, attrs, startIdx, slash, st2.index⟩, st2)

/-- The stack scan plus event emission of `parseEndTag` when `pos >= 0`:
pops every entry above (strictly) and including the match, emitting the
"no matching end tag" warning for the strict ones (always, when no tag name
was given) and an `end` for each; returns `none` when a tag name was given
but nothing matches. -/
def petPop (opts : HOpts) (hasName : Bool) (lower : Chars) (s e : Nat) :
    List StackEntry → Option (List HEvent × List StackEntry)
  | [] => if hasName then none else some ([], [])
  | en :: rest =>
    let isMatch := hasName && en.lowerCasedTag = lower
    let warnE : List HEvent :=
      if (!isMatch || !hasName) && opts.dev && opts.hasWarn then
        [.warnNoMatch en.tag]
      else []
    let endE : List HEvent :=
      if opts.hasEnd then [.endT en.tag s e] else []
    if isMatch then some (warnE ++ endE, rest)
    else
      match petPop opts hasName lower s e rest with
      | some (evs, r) => some (warnE ++ endE ++ evs, r)
      | none => none

/-- `parseEndTag(tagName, start, end)`. -/
def parseEndTag (opts : HOpts) (tagName : Option Chars)
    (startO endO : Option Nat) (st : HSt) : HSt × List HEvent :=
  let s := startO.getD st.index
  let e := endO.getD st.index
  match tagName with
  | some tn =>
    let lower := lowerS tn
    match petPop opts true lower s e st.stack with
    | some (evs, rest) =>
      ({ st with stack := rest, lastTag := (rest.head?).map (·.tag) }, evs)
    | none =>
      if lower = "br".toList then
        (st, if opts.hasStart then [.start tn [] true s e] else [])
      else if lower = "p".toList then
        (st,
          (if opts.hasStart then [.start tn [] false s e] else []) ++
            (if opts.hasEnd then [.endT tn s e] else []))
      else (st, [])
  | none =>
    match petPop opts false [] s e st.stack with
    | some (evs, rest) =>
      ({ st with stack := rest, lastTag := (rest.head?).map (·.tag) }, evs)
    | none => (st, [])

/-- `handleStartTag(match)`. -/
def handleStartTag (opts : HOpts) (m : StartTagMatch) (st : HSt) :
    HSt × List HEvent :=
  let tagName := m.tagName
  let r1 :=
    if opts.expectHTML && st.lastTag = some ('p' :: []) &&
        opts.isNonPhrasingTag tagName then
      parseEndTag opts st.lastTag none none st
    else (st, [])
  let r2 :=
    if opts.expectHTML && opts.canBeLeftOpenTag tagName &&
        r1.1.lastTag = some tagName then
      parseEndTag opts (some tagName) none none r1.1
    else (r1.1, [])
  let unary := opts.isUnaryTag tagName || m.unarySlash
  let attrs := m.attrs.map (fun p =>
    let nlFlag :=
      if tagName = "a".toList && p.1 = "href".toList then
        opts.shouldDecodeNewlinesForHref
      else opts.shouldDecodeNewlines
    (p.1, decodeAttr nlFlag p.2))
  let st3 :=
    if !unary then
      { r2.1 with
          stack := ⟨tagName, lowerS tagName, m.start, m.endPos⟩ :: r2.1.stack,
          lastTag := some tagName }
    else r2.1
  let evs :=
    if opts.hasStart then [HEvent.start tagName attrs unary m.start m.endPos]
    else []
  (st3, r1.2 ++ r2.2 ++ evs)

/-- Does `rest` begin a recognizable construct?  The guard of the inner
`while` of the text branch. -/
def tagCandidate (rest : Chars) : Bool :=
  (matchEndTag rest).isSome || (matchStartTagOpen rest).isSome ||
    startsWith ("<!--".toList) rest || startsWith ("<![".toList) rest

/-- `rest.indexOf('<', 1)`. -/
def indexOfLtFrom1 (rest : Chars) : Option Nat :=
  match indexOfSub ['<'] (rest.drop 1) with
  | some k => some (k + 1)
  | none => none

/-- The inner `while` that extends `textEnd` past `<`s that begin no
recognizable construct. -/
def textEndLoop : Nat → Chars → Nat → Nat
  | 0, _, te => te
  | fuel + 1, html, te =>
    let rest := html.drop te
    if tagCandidate rest then te
    else
      match indexOfLtFrom1 rest with
      | none => te
      | some nxt => textEndLoop fuel html (te + nxt)

/-- `</stackedTag[^>]*>` (case-insensitive) matched at the head of `s`:
match length. -/
def matchStackedEnd (tagL : Chars) (s : Chars) : Option Nat :=
  match s with
  | '<' :: '/' :: r =>
    if startsWithCI tagL r then
      let p := List.span (fun c => !(c = '>')) (r.drop tagL.length)
      match p.2 with
      | '>' :: _ => some (2 + tagL.length + p.1.length + 1)
      | _ => none
    else none
  | _ => none

/-- The first (lazy) match of `reStackedTag` in `html`: (text length,
end-tag length). -/
def findStackedEnd (tagL : Chars) : Nat → Chars → Nat → Option (Nat × Nat)
  | 0, _, _ => none
  | fuel + 1, html, p =>
    match matchStackedEnd tagL (html.drop p) with
    | some el => some (p, el)
    | none =>
      if html.drop p = [] then none
      else findStackedEnd tagL fuel html (p + 1)

/-- The doctype / end-tag / start-tag cases of the `textEnd === 0` block;
`.inl` means the construct matched and `continue`d with the given state and
events, `.inr` falls through to the text branch with the (possibly
`parseStartTag`-mutated) state. -/
def ltRest2 (opts : HOpts) (st : HSt) : (HSt × List HEvent) ⊕ HSt :=
  match matchDoctype st.html with
  | some len => .inl (advanceH st len, [])
  | none =>
    match matchEndTag st.html with
    | some (name, len) =>
      let curIndex := st.index
      let st1 := advanceH st len
      let r := parseEndTag opts (some name) (some curIndex) (some st1.index)
        st1
      .inl (r.1, r.2)
    | none =>
      match parseStartTag st with
      | (some m, st1) =>
        let r := handleStartTag opts m st1
        let st2 :=
          if shouldIgnoreFirstNewline m.tagName r.1.html then advanceH r.1 1
          else r.1
        .inl (st2, r.2)
      | (none, st1) => .inr st1

/-- The conditional-comment case of the `textEnd === 0` block (an unclosed
`<![` falls through to the later cases). -/
def ltRest (opts : HOpts) (st : HSt) : (HSt × List HEvent) ⊕ HSt :=
  if startsWith ("<![".toList) st.html then
    match indexOfSub ("]>".toList) st.html with
    | some condEnd => .inl (advanceH st (condEnd + 2), [])
    | none => ltRest2 opts st
  else ltRest2 opts st

/-- The five `textEnd === 0` constructs, tried in source order starting with
the comment case (an unclosed `<!--` falls through). -/
def ltConstructs (opts : HOpts) (st : HSt) : (HSt × List HEvent) ⊕ HSt :=
  if startsWith ("<!--".toList) st.html then
    match indexOfSub ("-->".toList) st.html with
    | some commentEnd =>
      let evs :=
        if opts.shouldKeepComment then
          [HEvent.comment ((st.html.drop 4).take (commentEnd - 4)) st.index
            (st.index + commentEnd + 3)]
        else []
      .inl (advanceH st (commentEnd + 3), evs)
    | none => ltRest opts st
  else ltRest opts st

/-- The main `while (html)` loop of `parseHTML`. -/
def phLoop (opts : HOpts) : Nat → HSt → HSt × List HEvent
  | 0, st => (st, [])
  | fuel + 1, st =>
    if st.html = [] then (st, [])
    else
      let last := st.html
      let ltag := st.lastTag
      if ltag = none || !(isPlainTextElement (ltag.getD [])) then
          let textEnd := indexOfSub ['<'] st.html
          let afterLt : (HSt × List HEvent) ⊕ HSt :=
            if textEnd = some 0 then ltConstructs opts st else .inr st
          match afterLt with
          | .inl (st1, evs) =>
            let r := phLoop opts fuel st1
            (r.1, evs ++ r.2)
          | .inr st1 =>
            let r2 :=
              match textEnd with
              | some te =>
                let te2 := textEndLoop (st1.html.length + 1) st1.html te
                let text := st1.html.take te2
                let st2 := if !(text = []) then advanceH st1 text.length
                  else st1
                let evs :=
                  if opts.hasChars && !(text = []) then
                    [HEvent.chars text (some (st2.index - text.length))
                      (some st2.index)]
                  else []
                (st2, evs)
              | none =>
                let text := st1.html
                let st2 := if !(text = []) then advanceH st1 text.length
                  else st1
                let evs :=
                  if opts.hasChars && !(text = []) then
                    [HEvent.chars text (some (st2.index - text.length))
                      (some st2.index)]
                  else []
                (st2, evs)
            if r2.1.html = last then
              let evs2 :=
                (if opts.hasChars then [HEvent.chars r2.1.html none none]
                 else []) ++
                (if opts.dev && r2.1.stack = [] && opts.hasWarn then
                  [HEvent.warnMalformed r2.1.html]
                 else [])
              (r2.1, r2.2 ++ evs2)
            else
              let r := phLoop opts fuel r2.1
              (r.1, r2.2 ++ r.2)
        else
          let stackedTag := lowerS (ltag.getD [])
          let r2 :=
            match findStackedEnd stackedTag (st.html.length + 1) st.html 0
              with
            | some (p, el) =>
              let text0 := st.html.take p
              let text :=
                if shouldIgnoreFirstNewline stackedTag text0 then text0.drop 1
                else text0
              let evs :=
                if opts.hasChars then [HEvent.chars text none none] else []
              let st1 :=
                { st with html := st.html.drop (p + el),
                          index := st.index + p + el }
              let r := parseEndTag opts (some stackedTag)
                (some (st1.index - el)) (some st1.index) st1
              (r.1, evs ++ r.2)
            | none =>
              let r := parseEndTag opts (some stackedTag) (some st.index)
                (some st.index) st
              (r.1, r.2)
          if r2.1.html = last then
            let evs2 :=
              (if opts.hasChars then [HEvent.chars r2.1.html none none]
               else []) ++
              (if opts.dev && r2.1.stack = [] && opts.hasWarn then
                [HEvent.warnMalformed r2.1.html]
               else [])
            (r2.1, r2.2 ++ evs2)
          else
            let r := phLoop opts fuel r2.1
            (r.1, r2.2 ++ r.2)

/-- `parseHTML(html, options)`: the full event trace. -/
def parseHTML (opts : HOpts) (input : Chars) : List HEvent :=
  let r := phLoop opts (input.length + 1) ⟨input, 0, [], none⟩
  let r2 := parseEndTag opts none none none r.1
  r.2 ++ r2.2

/-- The options of the claim's scenario: all hooks present, development
build, HTML expected, no special tag classifiers (`no`). -/
def demoOpts : HOpts :=
  ⟨true, fun _ => false, fun _ => false, fun _ => false, true, false, false,
    true, true, true, true, true⟩

/-- Scenario E's template. -/
def demoInput : Chars := "<div>a<b</div>".toList

/-- The (kind, payload) abstraction under which the spec states scenario E:
hook name and tag/text argument. -/
def shape : HEvent → String × String
  | .start t _ _ _ _ => ("start", String.mk t)
  | .chars t _ _ => ("chars", String.mk t)
  | .comment t _ _ => ("comment", String.mk t)
  | .endT t _ _ => ("end", String.mk t)
  | .warnNoMatch t => ("warnNoMatch", String.mk t)
  | .warnMalformed t => ("warnMalformed", String.mk t)

/-- The event sequence scenario E claims, under `shape`. -/
def scenarioEClaimed : List (String × String) :=
  [("start", "div"), ("chars", "a<b"), ("end", "div")]

end VHTML

/-! ## Theorems -/

/-- The `$off(event, fn)` loop drops at most one element. -/
theorem offLoop_length (f : Nat) : ∀ cbs : List VEvents.Handler,
    cbs.length ≤ (VEvents.offLoop f cbs).length + 1 := by
  intro cbs
  induction cbs with
  | nil => simp [VEvents.offLoop]
  | cons cb rest ih =>
    unfold VEvents.offLoop
    by_cases h : VEvents.matchesFn cb f <;> simp [h] <;> omega

/-- When no element of the prefix matches, the loop keeps the prefix and
drops exactly the boundary handler. -/
theorem offLoop_skips_non_matching (f : Nat) (r : List VEvents.Handler) :
    ∀ m : List VEvents.Handler, (∀ cb ∈ m, VEvents.matchesFn cb f = false) →
    VEvents.offLoop f (m ++ VEvents.Handler.plain f :: r) = m ++ r := by
  intro m
  induction m with
  | nil => simp [VEvents.offLoop, VEvents.matchesFn]
  | cons cb rest ih =>
    intro hm
    have hcb : VEvents.matchesFn cb f = false := hm cb (by simp)
    simp only [List.cons_append, VEvents.offLoop, hcb, if_false, Bool.false_eq_true,
      List.append_eq]
    rw [ih (fun x hx => hm x (by simp [hx]))]

/-- C10: a single `$off(event, fn)` call with both an event name and a
handler removes at most one registration — the most recently registered
handler whose identity or whose `.fn` equals `fn` — so earlier duplicate
registrations of the same handler remain in the list and are still invoked
by a subsequent `$emit`. -/
theorem off_removes_only_latest_registration :
    (∀ (f : Nat) (cbs : List VEvents.Handler),
       cbs.length ≤ (VEvents.offRemove f cbs).length + 1) ∧
    (∀ (f : Nat) (l m : List VEvents.Handler),
       (∀ cb ∈ m, VEvents.matchesFn cb f = false) →
       VEvents.offEventFn (some (l ++ VEvents.Handler.plain f :: m)) f =
         some (l ++ m) ∧
       VEvents.emitInvokes
         (VEvents.offEventFn (some (l ++ VEvents.Handler.plain f :: m)) f) =
         l ++ m) := by
  constructor
  · intro f cbs
    have := offLoop_length f cbs.reverse
    unfold VEvents.offRemove
    simpa using this
  · intro f l m hm
    have hrev : (l ++ VEvents.Handler.plain f :: m).reverse =
        m.reverse ++ VEvents.Handler.plain f :: l.reverse := by
      simp
    have hloop := offLoop_skips_non_matching f l.reverse m.reverse
      (fun cb hcb => hm cb (List.mem_reverse.mp hcb))
    have hoff : VEvents.offRemove f (l ++ VEvents.Handler.plain f :: m) = l ++ m := by
      unfold VEvents.offRemove
      rw [hrev, hloop]
      simp
    exact ⟨by simp [VEvents.offEventFn, hoff],
           by simp [VEvents.offEventFn, hoff, VEvents.emitInvokes]⟩

/-- Closed witness for C10: the handler with id 7 registered twice; one
`$off` leaves the earlier registration, which `$emit` still invokes. -/
theorem off_removes_only_latest_registration_witness :
    VEvents.offEventFn
        (some [VEvents.Handler.plain 7, VEvents.Handler.plain 7]) 7 =
      some [VEvents.Handler.plain 7] ∧
    VEvents.emitInvokes
        (VEvents.offEventFn
          (some [VEvents.Handler.plain 7, VEvents.Handler.plain 7]) 7) =
      [VEvents.Handler.plain 7] :=
  off_removes_only_latest_registration.2 7 [VEvents.Handler.plain 7] []
    (fun cb hcb => absurd hcb (List.not_mem_nil cb))

/-- C5: `parseText("hello \x7b\x7b a \x7d\x7d \x7b\x7b b|f \x7d\x7d")` with the
default delimiters returns an expression equal to
`"hello "+_s(a)+" "+_s(_f("f")(b))` — for any filter parser that maps `a` to
itself and `b|f` to `_f("f")(b)` — and a `tokens` array of length 4 holding
exactly two binding records; and for any text with no delimiter match,
`parseText` returns `undefined`. -/
theorem parseText_hello_filter_tokens :
    (∀ pf : String → String, pf "a" = "a" → pf "b|f" = "_f(\"f\")(b)" →
      ∃ r : VText.TextParseResult,
        VText.parseText pf "hello \x7b\x7b a \x7d\x7d \x7b\x7b b|f \x7d\x7d" = some r ∧
        r.expression = "\"hello \"+_s(a)+\" \"+_s(_f(\"f\")(b))" ∧
        r.tokens.length = 4 ∧ VText.bindingCount r.tokens = 2) ∧
    (∀ (pf : String → String) (text : String),
      VText.hasInterpolation text = false → VText.parseText pf text = none) := by
  constructor
  · intro pf hpa hpb
    have h : VText.parseText pf "hello \x7b\x7b a \x7d\x7d \x7b\x7b b|f \x7d\x7d" =
        some ⟨"\"hello \"" ++ "+" ++ ("_s(" ++ pf "a" ++ ")") ++ "+" ++ "\" \"" ++ "+"
                ++ ("_s(" ++ pf "b|f" ++ ")"),
              [.lit "hello ", .binding (pf "a"), .lit " ", .binding (pf "b|f")]⟩ := rfl
    rw [hpa, hpb] at h
    exact ⟨_, h, rfl, rfl, rfl⟩
  · intro pf text h
    unfold VText.hasInterpolation at h
    show VText.parseTextWith pf VText.defaultOpen VText.defaultClose text = none
    unfold VText.parseTextWith
    simp only [String.toList] at h ⊢
    rcases hm : VText.tagMatch VText.defaultOpen VText.defaultClose text.data with _ | m
    · rfl
    · rw [hm] at h
      simp at h

/-- Closed witness for C5 at the concrete filter parser `pfScenario` and the
match-free text `"hello"`. -/
theorem parseText_hello_filter_tokens_witness :
    (∃ r : VText.TextParseResult,
      VText.parseText VText.pfScenario "hello \x7b\x7b a \x7d\x7d \x7b\x7b b|f \x7d\x7d" = some r ∧
      r.expression = "\"hello \"+_s(a)+\" \"+_s(_f(\"f\")(b))" ∧
      r.tokens.length = 4 ∧ VText.bindingCount r.tokens = 2) ∧
    VText.parseText VText.pfScenario "hello" = none :=
  ⟨parseText_hello_filter_tokens.1 VText.pfScenario rfl rfl,
   parseText_hello_filter_tokens.2 VText.pfScenario "hello" rfl⟩

/-- Two type names that differ cannot share a first-occurrence index in a
type list. -/
theorem getTypeIndexList_ne (t1 t2 : VProps.PType)
    (hne : VProps.getType t1 ≠ VProps.getType t2) :
    ∀ es : List VProps.PType,
      0 ≤ VProps.getTypeIndexList t1 es → 0 ≤ VProps.getTypeIndexList t2 es →
      VProps.getTypeIndexList t1 es ≠ VProps.getTypeIndexList t2 es := by
  intro es
  induction es with
  | nil => simp [VProps.getTypeIndexList]
  | cons e rest ih =>
    intro h1 h2
    simp only [VProps.getTypeIndexList, VProps.isSameType,
      decide_eq_true_eq] at h1 h2 ⊢
    by_cases he1 : VProps.getType e = VProps.getType t1
    · have he2 : ¬ VProps.getType e = VProps.getType t2 := by
        rw [he1]
        exact hne
      rw [if_pos he1, if_neg he2] at *
      split <;> omega
    · rw [if_neg he1] at h1 ⊢
      by_cases he2 : VProps.getType e = VProps.getType t2
      · rw [if_pos he2] at h2 ⊢
        split at h1 <;> omega
      · rw [if_neg he2] at h2 ⊢
        have hr1 : ¬ VProps.getTypeIndexList t1 rest < 0 := by
          by_contra hc
          rw [if_pos hc] at h1
          omega
        have hr2 : ¬ VProps.getTypeIndexList t2 rest < 0 := by
          by_contra hc
          rw [if_pos hc] at h2
          omega
        rw [if_neg hr1] at h1 ⊢
        rw [if_neg hr2] at h2 ⊢
        have := ih (by omega) (by omega)
        omega

/-- Distinct type names have distinct non-negative `getTypeIndex` results. -/
theorem getTypeIndex_ne (t1 t2 : VProps.PType) (d : VProps.TypeDecl)
    (hne : VProps.getType t1 ≠ VProps.getType t2)
    (h1 : 0 ≤ VProps.getTypeIndex t1 d) (h2 : 0 ≤ VProps.getTypeIndex t2 d) :
    VProps.getTypeIndex t1 d ≠ VProps.getTypeIndex t2 d := by
  cases d with
  | single e =>
    simp only [VProps.getTypeIndex, VProps.isSameType, decide_eq_true_eq] at h1 h2 ⊢
    by_cases he1 : VProps.getType e = VProps.getType t1
    · have he2 : ¬ VProps.getType e = VProps.getType t2 := by
        rw [he1]
        exact hne
      rw [if_neg he2] at h2
      omega
    · rw [if_neg he1] at h1
      omega
  | list es => exact getTypeIndexList_ne t1 t2 hne es h1 h2

/-- C6: for a declared prop whose type list includes `Boolean`,
`validateProp` applies the boolean casting rules: absent without a default
gives `false`; a passed empty string or the hyphenated key gives `true`
unless `String` appears at an earlier (higher-priority) position than
`Boolean` in the type list. -/
theorem validateProp_boolean_casting :
    ∀ (hyph : String → String) (key : String) (prop : VProps.PropOpt)
      (propsData : List (String × VProps.PVal)) (vm : Option VProps.VmCtx),
      VProps.getTypeIndex (VProps.PType.named "Boolean") prop.type > -1 →
      ((VProps.hasOwn propsData key = false →
          prop.dflt = VProps.DefaultDecl.noDefault →
          VProps.validateProp hyph key prop propsData vm = VProps.PVal.vbool false) ∧
       (∀ v : VProps.PVal, VProps.readVal propsData key = v →
          (v = VProps.PVal.vstr "" ∨ v = VProps.PVal.vstr (hyph key)) →
          ¬ (0 ≤ VProps.getTypeIndex (VProps.PType.named "String") prop.type ∧
             VProps.getTypeIndex (VProps.PType.named "String") prop.type <
               VProps.getTypeIndex (VProps.PType.named "Boolean") prop.type) →
          VProps.validateProp hyph key prop propsData vm = VProps.PVal.vbool true)) := by
  intro hyph key prop propsData vm hbool
  constructor
  · intro habs hnodef
    have hcast : VProps.booleanCast hyph key prop propsData = VProps.PVal.vbool false := by
      unfold VProps.booleanCast
      rw [if_pos hbool]
      have : (!VProps.hasOwn propsData key && !prop.dflt.isPresent) = true := by
        rw [habs, hnodef]
        rfl
      rw [if_pos this]
    unfold VProps.validateProp
    rw [hcast]
    rfl
  · intro v hv hvs hnot
    have hstr : (VProps.getTypeIndex (VProps.PType.named "String") prop.type < 0 ||
        VProps.getTypeIndex (VProps.PType.named "Boolean") prop.type <
          VProps.getTypeIndex (VProps.PType.named "String") prop.type) = true := by
      by_cases hs : VProps.getTypeIndex (VProps.PType.named "String") prop.type < 0
      · simp [hs]
      · have hge : 0 ≤ VProps.getTypeIndex (VProps.PType.named "String") prop.type := by omega
        have hne : VProps.getType (VProps.PType.named "String") ≠
            VProps.getType (VProps.PType.named "Boolean") := by
          simp [VProps.getType]
        have := getTypeIndex_ne (VProps.PType.named "String")
          (VProps.PType.named "Boolean") prop.type hne hge (by omega)
        simp only [Bool.or_eq_true, decide_eq_true_eq]
        right
        omega
    -- key is present: an absent key reads undefined, not a string
    have hown : VProps.hasOwn propsData key = true := by
      unfold VProps.hasOwn
      unfold VProps.readVal at hv
      rcases hg : VProps.jget propsData key with _ | w
      · rw [hg] at hv
        simp at hv
        rcases hvs with h | h <;> rw [← hv] at h <;> exact absurd h (by simp)
      · simp [hg]
    have hveq : (VProps.readVal propsData key == VProps.PVal.vstr "" ||
        VProps.readVal propsData key == VProps.PVal.vstr (hyph key)) = true := by
      rw [hv]
      rcases hvs with h | h <;> simp [h]
    have habs : (!VProps.hasOwn propsData key && !prop.dflt.isPresent) = false := by
      rw [hown]
      rfl
    have hcast : VProps.booleanCast hyph key prop propsData = VProps.PVal.vbool true := by
      unfold VProps.booleanCast
      rw [if_pos hbool, if_neg (by rw [habs]; exact Bool.false_ne_true),
        if_pos hveq, if_pos hstr]
    unfold VProps.validateProp
    rw [hcast]
    rfl

/-- Closed witness for C6: a prop typed `[Boolean, String]` with no
default; absent gives `false`, the empty string gives `true`. -/
theorem validateProp_boolean_casting_witness :
    VProps.validateProp VProps.hyphId "foo" VProps.propBoolStr [] none =
      VProps.PVal.vbool false ∧
    VProps.validateProp VProps.hyphId "foo" VProps.propBoolStr
        [("foo", VProps.PVal.vstr "")] none =
      VProps.PVal.vbool true :=
  ⟨(validateProp_boolean_casting VProps.hyphId "foo" VProps.propBoolStr []
      none (by decide)).1 rfl rfl,
   (validateProp_boolean_casting VProps.hyphId "foo" VProps.propBoolStr
      [("foo", VProps.PVal.vstr "")] none (by decide)).2
     (VProps.PVal.vstr "") rfl (Or.inl rfl) (by decide)⟩

namespace VMerge

theorem fget_snoc_ne : ∀ (tf : JFields) (k1 k : String) (w : JVal), k1 ≠ k →
    fget (snocF tf k1 w) k = fget tf k
  | .nilF, k1, k, w, h => by simp [snocF, fget, h]
  | .consF k2 v rest, k1, k, w, h => by
    unfold snocF fget
    by_cases h2 : k2 = k
    · simp [h2]
    · simp only [h2, if_false, Bool.false_eq_true]
      exact fget_snoc_ne rest k1 k w h

theorem fget_snoc_self : ∀ (tf : JFields) (k : String) (w : JVal),
    fget tf k = none → fget (snocF tf k w) k = some w
  | .nilF, k, w, _ => by simp [snocF, fget]
  | .consF k2 v rest, k, w, h => by
    unfold snocF fget
    unfold fget at h
    by_cases h2 : k2 = k
    · simp [h2] at h
    · simp only [h2, if_false, Bool.false_eq_true] at h ⊢
      exact fget_snoc_self rest k w h

theorem fget_fset_ne : ∀ (tf : JFields) (k1 k : String) (w : JVal), k1 ≠ k →
    fget (fset tf k1 w) k = fget tf k
  | .nilF, k1, k, w, _ => by simp [fset, fget]
  | .consF k2 v rest, k1, k, w, h => by
    unfold fset fget
    by_cases h2 : k2 = k1
    · subst h2
      simp [fget, h]
    · by_cases h3 : k2 = k
      · subst h3
        rw [if_neg (Ne.symm h)]
        simp [fget]
      · simp only [h2, h3, if_false, Bool.false_eq_true, fget]
        exact fget_fset_ne rest k1 k w h

theorem fget_fset_self : ∀ (tf : JFields) (k : String) (w : JVal),
    (fget tf k).isSome → fget (fset tf k w) k = some w
  | .nilF, k, w, h => by simp [fget] at h
  | .consF k2 v rest, k, w, h => by
    unfold fset fget
    unfold fget at h
    by_cases h2 : k2 = k
    · simp [h2]
    · simp only [h2, if_false, Bool.false_eq_true] at h ⊢
      exact fget_fset_self rest k w h

theorem mergeFields_not_mem (k : String) :
    ∀ (ff : JFields) (tf : JFields), ¬ k ∈ keysF ff →
      fget (mergeFields tf ff) k = fget tf k
  | .nilF, tf, _ => rfl
  | .consF k1 fv rest, tf, hmem => by
    have hk1 : k1 ≠ k := by
      intro hc
      exact hmem (by simp [keysF, hc])
    have hrest : ¬ k ∈ keysF rest := fun hc => hmem (by simp [keysF, hc])
    unfold mergeFields
    by_cases hob : k1 = "__ob__"
    · simp only [hob, if_pos rfl]
      exact mergeFields_not_mem k rest tf hrest
    · simp only [if_neg hob]
      rcases hget : fget tf k1 with _ | tv
      · rw [mergeFields_not_mem k rest _ hrest, fget_snoc_ne _ _ _ _ hk1]
      · by_cases hg : (!(jeq tv fv) && isPlainObject tv && isPlainObject fv) = true
        · simp only [hg, if_true]
          rw [mergeFields_not_mem k rest _ hrest, fget_fset_ne _ _ _ _ hk1]
        · simp only [hg, Bool.false_eq_true, if_false]
          exact mergeFields_not_mem k rest tf hrest

end VMerge

namespace VMerge

theorem mergeFields_absent_copied (k : String) (hob : k ≠ "__ob__") :
    ∀ (ff : JFields) (tf : JFields) (v : JVal),
      fget tf k = none → fget ff k = some v → (keysF ff).Nodup →
      fget (mergeFields tf ff) k = some v
  | .nilF, tf, v, _, hff, _ => by simp [fget] at hff
  | .consF k1 fv rest, tf, v, htf, hff, hnd => by
    have hnd1 : ¬ k1 ∈ keysF rest := by
      simp [keysF, List.nodup_cons] at hnd
      exact hnd.1
    have hndr : (keysF rest).Nodup := by
      simp [keysF, List.nodup_cons] at hnd
      exact hnd.2
    unfold mergeFields
    by_cases hk : k1 = k
    · subst hk
      unfold fget at hff
      rw [if_pos rfl] at hff
      rw [← Option.some.inj hff]
      rw [if_neg hob, htf]
      rw [mergeFields_not_mem k1 rest _ hnd1]
      exact fget_snoc_self tf k1 fv htf
    · have hffr : fget rest k = some v := by
        unfold fget at hff
        rw [if_neg hk] at hff
        exact hff
      by_cases hobk1 : k1 = "__ob__"
      · simp only [hobk1, if_pos rfl]
        exact mergeFields_absent_copied k hob rest tf v htf hffr hndr
      · simp only [if_neg hobk1]
        rcases hget : fget tf k1 with _ | tv
        · exact mergeFields_absent_copied k hob rest _ v
            (by rw [fget_snoc_ne _ _ _ _ hk]; exact htf) hffr hndr
        · by_cases hg : (!(jeq tv fv) && isPlainObject tv && isPlainObject fv) = true
          · simp only [hg, if_true]
            exact mergeFields_absent_copied k hob rest _ v
              (by rw [fget_fset_ne _ _ _ _ hk]; exact htf) hffr hndr
          · simp only [hg, Bool.false_eq_true, if_false]
            exact mergeFields_absent_copied k hob rest tf v htf hffr hndr

theorem mergeFields_conflict (k : String) (hob : k ≠ "__ob__") :
    ∀ (ff : JFields) (tf : JFields) (tv fv : JVal),
      fget tf k = some tv → fget ff k = some fv → (keysF ff).Nodup →
      fget (mergeFields tf ff) k =
        some (if !(jeq tv fv) && isPlainObject tv && isPlainObject fv then
                mergeData tv fv
              else tv)
  | .nilF, tf, tv, fv, _, hff, _ => by simp [fget] at hff
  | .consF k1 fv1 rest, tf, tv, fv, htf, hff, hnd => by
    have hnd1 : ¬ k1 ∈ keysF rest := by
      simp [keysF, List.nodup_cons] at hnd
      exact hnd.1
    have hndr : (keysF rest).Nodup := by
      simp [keysF, List.nodup_cons] at hnd
      exact hnd.2
    unfold mergeFields
    by_cases hk : k1 = k
    · subst hk
      unfold fget at hff
      rw [if_pos rfl] at hff
      rw [Option.some.inj hff]
      rw [if_neg hob, htf]
      by_cases hg : (!(jeq tv fv) && isPlainObject tv && isPlainObject fv) = true
      · simp only [hg, if_true]
        rw [mergeFields_not_mem k1 rest _ hnd1]
        exact fget_fset_self tf k1 _ (by rw [htf]; rfl)
      · simp only [hg, Bool.false_eq_true, if_false]
        rw [mergeFields_not_mem k1 rest _ hnd1]
        exact htf
    · have hffr : fget rest k = some fv := by
        unfold fget at hff
        rw [if_neg hk] at hff
        exact hff
      by_cases hobk1 : k1 = "__ob__"
      · simp only [hobk1, if_pos rfl]
        exact mergeFields_conflict k hob rest tf tv fv htf hffr hndr
      · simp only [if_neg hobk1]
        rcases hget : fget tf k1 with _ | tv1
        · exact mergeFields_conflict k hob rest _ tv fv
            (by rw [fget_snoc_ne _ _ _ _ hk]; exact htf) hffr hndr
        · by_cases hg : (!(jeq tv1 fv1) && isPlainObject tv1 && isPlainObject fv1) = true
          · simp only [hg, if_true]
            exact mergeFields_conflict k hob rest _ tv fv
              (by rw [fget_fset_ne _ _ _ _ hk]; exact htf) hffr hndr
          · simp only [hg, Bool.false_eq_true, if_false]
            exact mergeFields_conflict k hob rest tf tv fv htf hffr hndr

end VMerge

/-- C3: the data merge strategy without an instance (both sides functions)
returns a function; with an instance, the merged data is the deep merge of
the child factory's result over the parent factory's result — keys absent
from the child result are copied from the parent, nested plain objects are
merged recursively, and the child side wins on scalar conflicts; in
particular, merging the scenario's two factories yields instance data
equal (up to key order) to the expected object. -/
theorem data_merge_strategy :
    (∀ p c : VMerge.JVal,
       VMerge.isFunctionResult (VMerge.mergeDataOrFn (.dfn p) (.dfn c) false) = true) ∧
    (∀ p c : VMerge.JVal, VMerge.truthy c = true →
       VMerge.mergeDataOrFn (.dfn p) (.dfn c) true =
         .mergedFn (VMerge.mergeData c p)) ∧
    (∀ (k : String) (tf ff : VMerge.JFields) (v : VMerge.JVal),
       k ≠ "__ob__" → VMerge.fget tf k = none → VMerge.fget ff k = some v →
       (VMerge.keysF ff).Nodup →
       VMerge.fget (VMerge.mergeFields tf ff) k = some v) ∧
    (∀ (k : String) (tf ff : VMerge.JFields) (tv fv : VMerge.JVal),
       k ≠ "__ob__" → VMerge.fget tf k = some tv → VMerge.fget ff k = some fv →
       (VMerge.keysF ff).Nodup →
       VMerge.fget (VMerge.mergeFields tf ff) k =
         some (if !(VMerge.jeq tv fv) && VMerge.isPlainObject tv &&
                  VMerge.isPlainObject fv
               then VMerge.mergeData tv fv else tv)) ∧
    (VMerge.mergeDataOrFn (.dfn VMerge.parentScenario) (.dfn VMerge.childScenario)
        true =
       .mergedFn (VMerge.mergeData VMerge.childScenario VMerge.parentScenario) ∧
     VMerge.jNorm (VMerge.mergeData VMerge.childScenario VMerge.parentScenario) =
       VMerge.jNorm VMerge.expectedScenario) := by
  refine ⟨fun p c => rfl, fun p c hc => ?_, ?_, ?_, rfl, rfl⟩
  · simp only [VMerge.mergeDataOrFn, VMerge.invokeData, VMerge.dTruthy,
      Bool.not_true, Bool.false_eq_true, if_false, hc, if_true]
  · intro k tf ff v hob htf hff hnd
    exact VMerge.mergeFields_absent_copied k hob ff tf v htf hff hnd
  · intro k tf ff tv fv hob htf hff hnd
    exact VMerge.mergeFields_conflict k hob ff tf tv fv htf hff hnd

/-- Closed witness for C3 at the scenario factories: the function-returning
no-instance merge, one copied key, and the merged instance data. -/
theorem data_merge_strategy_witness :
    VMerge.isFunctionResult
      (VMerge.mergeDataOrFn (.dfn VMerge.parentScenario)
        (.dfn VMerge.childScenario) false) = true ∧
    VMerge.mergeDataOrFn (.dfn VMerge.parentScenario) (.dfn VMerge.childScenario)
        true =
      .mergedFn (VMerge.mergeData VMerge.childScenario VMerge.parentScenario) ∧
    VMerge.fget
        (VMerge.mergeFields
          (VMerge.JFields.consF "c" (VMerge.JVal.jnum 3) .nilF)
          (VMerge.JFields.consF "a" (VMerge.JVal.jnum 1) .nilF)) "a" =
      some (VMerge.JVal.jnum 1) :=
  ⟨data_merge_strategy.1 VMerge.parentScenario VMerge.childScenario,
   data_merge_strategy.2.1 VMerge.parentScenario VMerge.childScenario rfl,
   data_merge_strategy.2.2.1 "a"
     (VMerge.JFields.consF "c" (VMerge.JVal.jnum 3) .nilF)
     (VMerge.JFields.consF "a" (VMerge.JVal.jnum 1) .nilF)
     (VMerge.JVal.jnum 1) (by decide) rfl rfl (by simp [VMerge.keysF])⟩

/-- C7: every call to one of the seven intercepted array methods performs
the original array operation and returns its result, calls `notify()` on
the array observer's dep exactly once, and observes every inserted element
(the arguments for push/unshift, the elements after the first two splice
arguments) before the notification. -/
theorem array_mutators_notify_once_observe_inserted :
    ∀ (sortImpl : List Nat → List Nat) (op : VArray.ArrayOp) (arr : List Nat),
      ((VArray.mutator sortImpl op arr).2.2.count VArray.AEvent.notified = 1) ∧
      ((VArray.mutator sortImpl op arr).2.2 =
        (VArray.insertedOf op).map VArray.AEvent.observed ++
          [VArray.AEvent.notified]) ∧
      (((VArray.mutator sortImpl op arr).1,
        (VArray.mutator sortImpl op arr).2.1) =
        VArray.applyOriginal sortImpl op arr) := by
  intro sortImpl op arr
  refine ⟨?_, rfl, rfl⟩
  unfold VArray.mutator
  rw [List.count_append]
  have hz : ((VArray.insertedOf op).map VArray.AEvent.observed).count
      VArray.AEvent.notified = 0 := by
    rw [List.count_eq_zero]
    intro hmem
    rcases List.mem_map.mp hmem with ⟨x, _, hx⟩
    exact absurd hx (by simp)
  rw [hz]
  rfl

/-- Closed witness for C7: a `push` of one element observes it and notifies
once. -/
theorem array_mutators_notify_once_observe_inserted_witness :
    ((VArray.mutator (fun l => l) (.push [5]) [1, 2]).2.2.count
        VArray.AEvent.notified = 1) ∧
    ((VArray.mutator (fun l => l) (.push [5]) [1, 2]).2.2 =
      [VArray.AEvent.observed 5, VArray.AEvent.notified]) ∧
    (VArray.mutator (fun l => l) (.push [5]) [1, 2]).1 = [1, 2, 5] :=
  ⟨(array_mutators_notify_once_observe_inserted (fun l => l) (.push [5]) [1, 2]).1,
   by rfl, by rfl⟩

namespace VOpt

theorem mem_allNodes_mk (m : ANode) (d : NodeData) (ch ifb : NList) :
    m ∈ allNodes (.mk d ch ifb) ↔
      m = .mk d ch ifb ∨ m ∈ allNodesL ch ∨ m ∈ allNodesL ifb := by
  simp [allNodes]

theorem mem_allNodesL_cons (m n : ANode) (rest : NList) :
    m ∈ allNodesL (.consN n rest) ↔ m ∈ allNodes n ∨ m ∈ allNodesL rest := by
  simp [allNodesL]

theorem staticTruthy_eq_true {o : Option Bool} (h : staticTruthy o = true) :
    o = some true := by
  cases o with
  | none => simp [staticTruthy] at h
  | some b => cases b with
    | true => rfl
    | false => simp [staticTruthy] at h

mutual

theorem markStatic_sr_none (rv : String → Bool) (tf : Bool) :
    ∀ (n : ANode), (∀ m ∈ allNodes n, (dataOf m).staticRoot = none) →
      ∀ m ∈ allNodes (markStatic rv tf n), (dataOf m).staticRoot = none
  | .mk d ch ifb, hin => by
    have hd : (dataOf (ANode.mk d ch ifb)).staticRoot = none :=
      hin _ ((mem_allNodes_mk _ d ch ifb).mpr (Or.inl rfl))
    have hch : ∀ m ∈ allNodesL ch, (dataOf m).staticRoot = none :=
      fun m hm => hin m ((mem_allNodes_mk _ d ch ifb).mpr (Or.inr (Or.inl hm)))
    have hifb : ∀ m ∈ allNodesL ifb, (dataOf m).staticRoot = none :=
      fun m hm => hin m ((mem_allNodes_mk _ d ch ifb).mpr (Or.inr (Or.inr hm)))
    intro m hm
    unfold markStatic at hm
    by_cases h1 : d.ntype = 1
    · simp only [h1, if_pos rfl] at hm
      by_cases h2 : (!(rv d.tag) && d.tag ≠ "slot" && !d.inlineTemplate) = true
      · rw [if_pos h2] at hm
        rcases (mem_allNodes_mk _ _ _ _).mp hm with h | h | h
        · subst h
          exact hd
        · exact hch m h
        · exact hifb m h
      · rw [if_neg h2] at hm
        rcases (mem_allNodes_mk _ _ _ _).mp hm with h | h | h
        · subst h
          exact hd
        · exact markStaticL_sr_none rv _ ch hch m h
        · exact markStaticL_sr_none rv tf ifb hifb m h
    · simp only [if_neg h1] at hm
      rcases (mem_allNodes_mk _ _ _ _).mp hm with h | h | h
      · subst h
        exact hd
      · exact hch m h
      · exact hifb m h

theorem markStaticL_sr_none (rv : String → Bool) (tf : Bool) :
    ∀ (l : NList), (∀ m ∈ allNodesL l, (dataOf m).staticRoot = none) →
      ∀ m ∈ allNodesL (markStaticL rv tf l), (dataOf m).staticRoot = none
  | .nilN, _ => by
    intro m hm
    simp [markStaticL, allNodesL] at hm
  | .consN n rest, hin => by
    intro m hm
    unfold markStaticL at hm
    rcases (mem_allNodesL_cons _ _ _).mp hm with h | h
    · exact markStatic_sr_none rv tf n
        (fun x hx => hin x ((mem_allNodesL_cons _ _ _).mpr (Or.inl hx))) m h
    · exact markStaticL_sr_none rv tf rest
        (fun x hx => hin x ((mem_allNodesL_cons _ _ _).mpr (Or.inr hx))) m h

end

end VOpt

namespace VOpt

mutual

theorem msr_good (inFor : Bool) :
    ∀ (n : ANode), (∀ m ∈ allNodes n, (dataOf m).staticRoot = none) →
      ∀ m ∈ allNodes (markStaticRoots inFor n),
        (dataOf m).staticRoot = some true → goodStaticRoot m
  | .mk d ch ifb, hin => by
    have hch : ∀ m ∈ allNodesL ch, (dataOf m).staticRoot = none :=
      fun m hm => hin m ((mem_allNodes_mk _ d ch ifb).mpr (Or.inr (Or.inl hm)))
    have hifb : ∀ m ∈ allNodesL ifb, (dataOf m).staticRoot = none :=
      fun m hm => hin m ((mem_allNodes_mk _ d ch ifb).mpr (Or.inr (Or.inr hm)))
    intro m hm hsr
    simp only [markStaticRoots] at hm
    split at hm
    · -- `node.type === 1`
      split at hm
      · -- the static-root guard admitted the node
        rename_i hg
        rcases (mem_allNodes_mk _ _ _ _).mp hm with h | h | h
        · subst h
          simp only [Bool.and_eq_true, Bool.not_eq_true', decide_eq_true_eq,
            ne_eq] at hg
          obtain ⟨⟨hstat, hlen⟩, hshape⟩ := hg
          have hsame : (withSIF d inFor).static = d.static := by
            unfold withSIF
            split
            · rfl
            · rfl
          rw [hsame] at hstat
          have hst : d.static = some true := staticTruthy_eq_true hstat
          refine ⟨?_, ?_, ?_⟩
          · show (withSIF d inFor).static = some true
            rw [hsame]
            exact hst
          · show 1 ≤ lengthN ch
            omega
          · show ¬(lengthN ch = 1 ∧ headTypeN ch = some 3)
            intro hpair
            rw [Bool.and_eq_false_iff] at hshape
            rcases hshape with h | h
            · simp [hpair.1] at h
            · rw [hpair.2] at h
              simp at h
        · exact absurd hsr (by rw [hch m h]; simp)
        · exact absurd hsr (by rw [hifb m h]; simp)
      · rcases (mem_allNodes_mk _ _ _ _).mp hm with h | h | h
        · subst h
          simp [dataOf] at hsr
        · exact msrL_good (inFor || d.hasFor) ch hch m h hsr
        · exact msrL_good inFor ifb hifb m h hsr
    · have := hin m (by
        rcases (mem_allNodes_mk _ _ _ _).mp hm with h | h | h
        · exact (mem_allNodes_mk _ _ _ _).mpr (Or.inl h)
        · exact (mem_allNodes_mk _ _ _ _).mpr (Or.inr (Or.inl h))
        · exact (mem_allNodes_mk _ _ _ _).mpr (Or.inr (Or.inr h)))
      exact absurd hsr (by rw [this]; simp)

theorem msrL_good (inFor : Bool) :
    ∀ (l : NList), (∀ m ∈ allNodesL l, (dataOf m).staticRoot = none) →
      ∀ m ∈ allNodesL (markStaticRootsL inFor l),
        (dataOf m).staticRoot = some true → goodStaticRoot m
  | .nilN, _ => by
    intro m hm
    simp [markStaticRootsL, allNodesL] at hm
  | .consN n rest, hin => by
    intro m hm hsr
    unfold markStaticRootsL at hm
    rcases (mem_allNodesL_cons _ _ _).mp hm with h | h
    · exact msr_good inFor n
        (fun x hx => hin x ((mem_allNodesL_cons _ _ _).mpr (Or.inl hx))) m h hsr
    · exact msrL_good inFor rest
        (fun x hx => hin x ((mem_allNodesL_cons _ _ _).mpr (Or.inr hx))) m h hsr

end

end VOpt

/-- C9: after the optimizer's two passes over any element tree whose nodes
carry no `staticRoot` mark yet, every node with `staticRoot === true` is
itself static, has at least one child, and does not have a single
plain-text (type 3) node as its only child — `markStaticRoots` never
assigns `staticRoot = true` to a node whose children consist of exactly one
plain-text child. -/
theorem optimizer_static_roots_sound :
    ∀ (reserved : String → Bool) (root : VOpt.ANode),
      (∀ m ∈ VOpt.allNodes root, (VOpt.dataOf m).staticRoot = none) →
      ∀ m ∈ VOpt.allNodes (VOpt.optimize reserved root),
        (VOpt.dataOf m).staticRoot = some true → VOpt.goodStaticRoot m := by
  intro rv root hin m hm hsr
  exact VOpt.msr_good false (VOpt.markStatic rv false root)
    (VOpt.markStatic_sr_none rv false root hin) m hm hsr

/-- Closed witness for C9: a reserved element with two plain-text children
becomes a static root of the asserted shape. -/
theorem optimizer_static_roots_sound_witness :
    VOpt.goodStaticRoot (VOpt.optimize VOpt.demoReserved VOpt.demoRoot) :=
  optimizer_static_roots_sound VOpt.demoReserved VOpt.demoRoot
    (by
      intro m hm
      simp only [VOpt.demoRoot, VOpt.demoText, VOpt.allNodes, VOpt.allNodesL,
        List.mem_cons, List.mem_append, List.not_mem_nil, or_false] at hm
      rcases hm with h | h | h
      · subst h
        rfl
      · subst h
        rfl
      · subst h
        rfl)
    (VOpt.optimize VOpt.demoReserved VOpt.demoRoot)
    (List.mem_cons_self _ _)
    (by rfl)

/-- C1 counterexample: `set(undefined, "x", 0)` does not return normally —
after the development warning it throws a TypeError at `key in target`. -/
theorem set_undefined_target_throws :
    (VSet.jsSet ⟨[], []⟩ .undefined (.kstr "x") (.prim 0)).2.2 =
      .error (.typeError "cannot-use-in-operator-on-non-object") ∧
    (VSet.jsSet ⟨[], []⟩ .undefined (.kstr "x") (.prim 0)).2.1 =
      [.warnDev "cannot-set-on-primitive"] := ⟨rfl, rfl⟩

/-- On any heap object target, `set` and `del` return normally. -/
theorem set_del_object_targets_total :
    ∀ (st : VSet.SState) (oid : Nat) (key : VSet.SKey) (v o : _),
      VSet.lookupObj st oid = some o →
      (VSet.jsSet st (.ref oid) key v).2.2 = .ok v ∧
      (VSet.jsDel st (.ref oid) key).2.2 = .ok .undefined := by
  intro st oid key v o hl
  constructor
  · unfold VSet.jsSet
    simp only [hl]
    split
    · rfl
    · split
      · rfl
      · split
        · rfl
        · split
          · rfl
          · rfl
  · unfold VSet.jsDel
    simp only [hl]
    split
    · rfl
    · split
      · rfl
      · split
        · rfl
        · split
          · rfl
          · rfl

namespace VSet

theorem find_map_update {α : Type} [DecidableEq α] (oid : Nat) (o2 : α) :
    ∀ (l : List (Nat × α)), (l.find? (fun p => p.1 = oid)).isSome →
      ((l.map (fun p => if p.1 = oid then (p.1, o2) else p)).find?
          (fun p => p.1 = oid)).map (·.2) = some o2
  | [], h => by simp [List.find?] at h
  | (k, a) :: rest, h => by
    by_cases hk : k = oid
    · subst hk
      simp [List.find?]
    · simp only [List.map_cons, if_neg hk]
      rw [List.find?_cons_of_neg _ (by simp [hk])]
      rw [List.find?_cons_of_neg _ (by simp [hk])] at h
      exact find_map_update oid o2 rest h

theorem lookupObj_updateObj (st : SState) (oid : Nat) (o o2 : ObjData)
    (h : lookupObj st oid = some o) :
    lookupObj (updateObj st oid o2) oid = some o2 := by
  unfold lookupObj at h ⊢
  unfold updateObj
  apply find_map_update
  rcases hf : st.objs.find? (fun p => p.1 = oid) with _ | p
  · rw [hf] at h
    simp at h
  · simp [hf]

theorem setIdx_get (l : List SVal) (n : Nat) (v : SVal) :
    (setIdx l n v)[n]? = some v := by
  unfold setIdx
  by_cases h : n < l.length
  · rw [if_pos h]
    exact List.getElem?_set_eq_of_lt v h
  · rw [if_neg h]
    have hlen : (l ++ List.replicate (n - l.length) SVal.undefined).length = n := by
      simp
      omega
    rw [List.getElem?_append_right (by rw [hlen])]
    rw [hlen]
    simp

end VSet

namespace VSet

theorem setFieldValue_flags (k : String) (v : SVal) :
    ∀ fs : List (String × Field),
      (setFieldValue fs k v).map (fun p => (p.1, p.2.reactive)) =
        fs.map (fun p => (p.1, p.2.reactive)) := by
  intro fs
  induction fs with
  | nil => rfl
  | cons p rest ih =>
    unfold setFieldValue at ih ⊢
    by_cases hk : p.1 = k
    · simp [hk, ih]
    · simp [hk, ih]

theorem assignExisting_shape (oid : Nat) (o : ObjData) (k : String) (v : SVal)
    (f : Field) (hf : getField o k = some f) :
    ((assignExisting oid o k v).1.fields.map (fun p => (p.1, p.2.reactive)) =
      o.fields.map (fun p => (p.1, p.2.reactive))) ∧
    ∀ obId, SEvent.notifyObsDep obId ∉ (assignExisting oid o k v).2 := by
  unfold assignExisting
  simp only [hf]
  by_cases hr : f.reactive = true
  · rw [if_pos hr]
    by_cases hv : v = f.value
    · rw [if_pos hv]
      exact ⟨rfl, by intro obId hmem; simp at hmem⟩
    · rw [if_neg hv]
      refine ⟨setFieldValue_flags k v o.fields, ?_⟩
      intro obId hmem
      simp at hmem
  · rw [if_neg hr]
    refine ⟨setFieldValue_flags k v o.fields, ?_⟩
    intro obId hmem
    simp at hmem

theorem jsSet_array_case (st : SState) (oid : Nat) (key : SKey) (v : SVal)
    (o : ObjData) (hl : lookupObj st oid = some o)
    (harr : (o.isArray && isValidArrayIndex key) = true) :
    jsSet st (.ref oid) key v =
      (updateObj st oid { o with elems := setIdx o.elems (keyIndex key) v },
       (match o.observer with
        | some obId => [SEvent.observedVal v, SEvent.notifyObsDep obId]
        | none => []),
       .ok v) := by
  unfold jsSet
  simp only [hl]
  rw [if_pos harr]
  rfl

theorem jsSet_existing_key (st : SState) (oid : Nat) (key : SKey) (v : SVal)
    (o : ObjData) (f : Field) (hl : lookupObj st oid = some o)
    (harr : (o.isArray && isValidArrayIndex key) = false)
    (hf : getField o (keyStr key) = some f)
    (hproto : objectProtoHas (keyStr key) = false) :
    jsSet st (.ref oid) key v =
      (updateObj st oid (assignExisting oid o (keyStr key) v).1,
       (assignExisting oid o (keyStr key) v).2, .ok v) := by
  unfold jsSet
  simp only [hl]
  rw [if_neg (by rw [harr]; exact Bool.false_ne_true)]
  have hin : (keyIn o key && !objectProtoHas (keyStr key)) = true := by
    unfold keyIn
    rw [hf, hproto]
    simp
  rw [if_pos hin]
  rfl

theorem jsSet_vue_root (st : SState) (oid : Nat) (key : SKey) (v : SVal)
    (o : ObjData) (hl : lookupObj st oid = some o)
    (harr : (o.isArray && isValidArrayIndex key) = false)
    (hkey : (keyIn o key && !objectProtoHas (keyStr key)) = false)
    (hvue : (o.isVue || isRootData st o) = true) :
    jsSet st (.ref oid) key v =
      (st, [.warnDev "avoid-adding-to-vue-instance"], .ok v) := by
  unfold jsSet
  simp only [hl]
  rw [if_neg (by rw [harr]; exact Bool.false_ne_true)]
  rw [if_neg (by rw [hkey]; exact Bool.false_ne_true)]
  rw [if_pos hvue]
  rfl

theorem jsSet_new_key (st : SState) (oid : Nat) (key : SKey) (v : SVal)
    (o : ObjData) (hl : lookupObj st oid = some o)
    (harr : (o.isArray && isValidArrayIndex key) = false)
    (hkey : (keyIn o key && !objectProtoHas (keyStr key)) = false)
    (hvue : (o.isVue || isRootData st o) = false) :
    jsSet st (.ref oid) key v =
      (match o.observer with
       | some obId =>
         (updateObj st oid
            { o with fields := o.fields ++ [(keyStr key, ⟨v, true⟩)] },
          [SEvent.observedVal v, SEvent.notifyObsDep obId], .ok v)
       | none =>
         (updateObj st oid
            { o with fields := o.fields ++ [(keyStr key, ⟨v, false⟩)] },
          [], .ok v)) := by
  unfold jsSet
  simp only [hl]
  rw [if_neg (by rw [harr]; exact Bool.false_ne_true)]
  rw [if_neg (by rw [hkey]; exact Bool.false_ne_true)]
  rw [if_neg (by rw [hvue]; exact Bool.false_ne_true)]
  rcases ho : o.observer with _ | obId
  · rfl
  · rfl

end VSet

/-- C1 as amended: `set` throws a TypeError when the target is undefined,
null or a primitive (the development warning fires first), and `del` throws
when the target is undefined or null; `del` on a primitive returns
normally, and on any object or array target both operations return
normally (all other failure modes are warnings). -/
theorem set_del_exception_domain :
    (∀ (st : VSet.SState) (key : VSet.SKey) (v : VSet.SVal),
       (VSet.jsSet st .undefined key v).2.2.isOk = false ∧
       (VSet.jsSet st .snull key v).2.2.isOk = false ∧
       (∀ p, (VSet.jsSet st (.prim p) key v).2.2.isOk = false) ∧
       (VSet.jsSet st .undefined key v).2.1.head? =
         some (.warnDev "cannot-set-on-primitive") ∧
       (VSet.jsDel st .undefined key).2.2.isOk = false ∧
       (VSet.jsDel st .snull key).2.2.isOk = false ∧
       (∀ p, (VSet.jsDel st (.prim p) key).2.2 = .ok .undefined)) ∧
    (∀ (st : VSet.SState) (oid : Nat) (key : VSet.SKey) (v : VSet.SVal)
       (o : VSet.ObjData), VSet.lookupObj st oid = some o →
       (VSet.jsSet st (.ref oid) key v).2.2 = .ok v ∧
       (VSet.jsDel st (.ref oid) key).2.2 = .ok .undefined) :=
  ⟨fun st key v =>
    ⟨rfl, rfl, fun _ => rfl, rfl, rfl, rfl, fun _ => rfl⟩,
   set_del_object_targets_total⟩

/-- Closed witness for C1 at concrete targets. -/
theorem set_del_exception_domain_witness :
    (VSet.jsSet ⟨[], []⟩ .undefined (.kstr "x") (.prim 0)).2.2.isOk = false ∧
    (VSet.jsDel ⟨[], []⟩ (.prim 3) (.kstr "x")).2.2 = .ok .undefined ∧
    (VSet.jsSet ⟨[(0, ⟨false, [], [], false, none⟩)], []⟩ (.ref 0)
        (.kstr "k") (.prim 1)).2.2 = .ok (.prim 1) :=
  ⟨(set_del_exception_domain.1 ⟨[], []⟩ (.kstr "x") (.prim 0)).1,
   (set_del_exception_domain.1 ⟨[], []⟩ (.kstr "x") (.prim 0)).2.2.2.2.2.2 3,
   (set_del_exception_domain.2 ⟨[(0, ⟨false, [], [], false, none⟩)], []⟩ 0
      (.kstr "k") (.prim 1) ⟨false, [], [], false, none⟩ rfl).1⟩

/-- C2 as amended: the case analysis of `set(target, key, value)` — a
valid array index goes through splice (element set, subscribers of an
observed array notified); an existing own key (not an `Object.prototype`
key) is plainly assigned with no new accessor and no observer-dep
notification; a Vue instance or root `$data` target is rejected with a
development warning and no change; a new key on an observed target is
installed by `defineReactive` and the observer's dep notified exactly once;
a new key on an unobserved target is plainly assigned with no notification.
Every case returns `value`. -/
theorem set_case_analysis :
    (∀ (st : VSet.SState) (oid : Nat) (key : VSet.SKey) (v : VSet.SVal)
       (o : VSet.ObjData), VSet.lookupObj st oid = some o →
       (o.isArray && VSet.isValidArrayIndex key) = true →
       (VSet.jsSet st (.ref oid) key v).2.2 = .ok v ∧
       (∃ o2, VSet.lookupObj (VSet.jsSet st (.ref oid) key v).1 oid = some o2 ∧
          o2.elems[VSet.keyIndex key]? = some v) ∧
       (∀ obId, o.observer = some obId →
          (VSet.jsSet st (.ref oid) key v).2.1 =
            [.observedVal v, .notifyObsDep obId]) ∧
       (o.observer = none → (VSet.jsSet st (.ref oid) key v).2.1 = [])) ∧
    (∀ (st : VSet.SState) (oid : Nat) (key : VSet.SKey) (v : VSet.SVal)
       (o : VSet.ObjData) (f : VSet.Field), VSet.lookupObj st oid = some o →
       (o.isArray && VSet.isValidArrayIndex key) = false →
       VSet.getField o (VSet.keyStr key) = some f →
       VSet.objectProtoHas (VSet.keyStr key) = false →
       (VSet.jsSet st (.ref oid) key v).2.2 = .ok v ∧
       VSet.lookupObj (VSet.jsSet st (.ref oid) key v).1 oid =
         some (VSet.assignExisting oid o (VSet.keyStr key) v).1 ∧
       ((VSet.assignExisting oid o (VSet.keyStr key) v).1.fields.map
           (fun p => (p.1, p.2.reactive)) =
         o.fields.map (fun p => (p.1, p.2.reactive))) ∧
       (∀ obId, VSet.SEvent.notifyObsDep obId ∉
          (VSet.jsSet st (.ref oid) key v).2.1)) ∧
    (∀ (st : VSet.SState) (oid : Nat) (key : VSet.SKey) (v : VSet.SVal)
       (o : VSet.ObjData), VSet.lookupObj st oid = some o →
       (o.isArray && VSet.isValidArrayIndex key) = false →
       (VSet.keyIn o key && !VSet.objectProtoHas (VSet.keyStr key)) = false →
       (o.isVue || VSet.isRootData st o) = true →
       VSet.jsSet st (.ref oid) key v =
         (st, [.warnDev "avoid-adding-to-vue-instance"], .ok v)) ∧
    (∀ (st : VSet.SState) (oid : Nat) (key : VSet.SKey) (v : VSet.SVal)
       (o : VSet.ObjData) (obId : Nat), VSet.lookupObj st oid = some o →
       (o.isArray && VSet.isValidArrayIndex key) = false →
       (VSet.keyIn o key && !VSet.objectProtoHas (VSet.keyStr key)) = false →
       (o.isVue || VSet.isRootData st o) = false →
       o.observer = some obId →
       VSet.jsSet st (.ref oid) key v =
         (VSet.updateObj st oid
            { o with fields := o.fields ++ [(VSet.keyStr key, ⟨v, true⟩)] },
          [.observedVal v, .notifyObsDep obId], .ok v)) ∧
    (∀ (st : VSet.SState) (oid : Nat) (key : VSet.SKey) (v : VSet.SVal)
       (o : VSet.ObjData), VSet.lookupObj st oid = some o →
       (o.isArray && VSet.isValidArrayIndex key) = false →
       (VSet.keyIn o key && !VSet.objectProtoHas (VSet.keyStr key)) = false →
       (o.isVue || VSet.isRootData st o) = false →
       o.observer = none →
       VSet.jsSet st (.ref oid) key v =
         (VSet.updateObj st oid
            { o with fields := o.fields ++ [(VSet.keyStr key, ⟨v, false⟩)] },
          [], .ok v)) := by
  refine ⟨?_, ?_, ?_, ?_, ?_⟩
  · intro st oid key v o hl harr
    rw [VSet.jsSet_array_case st oid key v o hl harr]
    refine ⟨rfl, ?_, ?_, ?_⟩
    · exact ⟨_, VSet.lookupObj_updateObj st oid o _ hl, VSet.setIdx_get _ _ _⟩
    · intro obId hob
      simp [hob]
    · intro hob
      simp [hob]
  · intro st oid key v o f hl harr hf hproto
    rw [VSet.jsSet_existing_key st oid key v o f hl harr hf hproto]
    refine ⟨rfl, VSet.lookupObj_updateObj st oid o _ hl,
      (VSet.assignExisting_shape oid o (VSet.keyStr key) v f hf).1,
      (VSet.assignExisting_shape oid o (VSet.keyStr key) v f hf).2⟩
  · intro st oid key v o hl harr hkey hvue
    exact VSet.jsSet_vue_root st oid key v o hl harr hkey hvue
  · intro st oid key v o obId hl harr hkey hvue hob
    unfold VSet.jsSet
    simp only [hl]
    rw [if_neg (by rw [harr]; exact Bool.false_ne_true)]
    rw [if_neg (by rw [hkey]; exact Bool.false_ne_true)]
    rw [if_neg (by rw [hvue]; exact Bool.false_ne_true)]
    simp only [hob]
    rfl
  · intro st oid key v o hl harr hkey hvue hob
    unfold VSet.jsSet
    simp only [hl]
    rw [if_neg (by rw [harr]; exact Bool.false_ne_true)]
    rw [if_neg (by rw [hkey]; exact Bool.false_ne_true)]
    rw [if_neg (by rw [hvue]; exact Bool.false_ne_true)]
    simp only [hob]
    rfl

/-- C2 counterexample: `set` on an unobserved plain object with a new key
performs a plain assignment — no reactive accessor is installed and no
notification fires, contradicting the claim's unconditional otherwise
branch. -/
theorem set_unobserved_new_key_not_reactive :
    VSet.jsSet ⟨[(0, ⟨false, [], [], false, none⟩)], []⟩ (.ref 0) (.kstr "k")
        (.prim 1) =
      (⟨[(0, ⟨false, [], [("k", ⟨.prim 1, false⟩)], false, none⟩)], []⟩,
       [], .ok (.prim 1)) := rfl

/-- Closed witness for C2: an observed array index set, and a new key on
an observed object. -/
theorem set_case_analysis_witness :
    (VSet.jsSet ⟨[(0, ⟨true, [VSet.SVal.prim 9], [], false, some 5⟩)],
         [(5, ⟨0⟩)]⟩ (.ref 0) (.knum 0) (.prim 1)).2.1 =
      [.observedVal (.prim 1), .notifyObsDep 5] ∧
    VSet.jsSet ⟨[(0, ⟨false, [], [], false, some 5⟩)], [(5, ⟨0⟩)]⟩ (.ref 0)
        (.kstr "k") (.prim 1) =
      (VSet.updateObj ⟨[(0, ⟨false, [], [], false, some 5⟩)], [(5, ⟨0⟩)]⟩ 0
         ⟨false, [], [("k", ⟨.prim 1, true⟩)], false, some 5⟩,
       [.observedVal (.prim 1), .notifyObsDep 5], .ok (.prim 1)) :=
  ⟨(set_case_analysis.1 ⟨[(0, ⟨true, [VSet.SVal.prim 9], [], false, some 5⟩)],
      [(5, ⟨0⟩)]⟩ 0 (.knum 0) (.prim 1) ⟨true, [VSet.SVal.prim 9], [], false, some 5⟩
      rfl rfl).2.2.1 5 rfl,
   set_case_analysis.2.2.2.1 ⟨[(0, ⟨false, [], [], false, some 5⟩)], [(5, ⟨0⟩)]⟩
     0 (.kstr "k") (.prim 1) ⟨false, [], [], false, some 5⟩ 5 rfl rfl
     (by decide) (by decide) rfl⟩

namespace VObs

theorem find_map_upd_ne {α : Type} (oid2 oid : Nat) (o : α) (h : oid ≠ oid2) :
    ∀ (l : List (Nat × α)),
      (l.map (fun p => if p.1 = oid2 then (p.1, o) else p)).find?
          (fun p => p.1 = oid) =
        l.find? (fun p => p.1 = oid)
  | [] => rfl
  | (k, a) :: rest => by
    simp only [List.map_cons]
    by_cases hk2 : k = oid
    · have hne : ¬ (k = oid2) := fun he => h (hk2.symm.trans he)
      rw [if_neg hne]
      rw [List.find?_cons_of_pos _ (by simp [hk2]),
        List.find?_cons_of_pos _ (by simp [hk2])]
    · by_cases hk : k = oid2
      · rw [if_pos hk]
        rw [List.find?_cons_of_neg _ (by simp [hk2]),
          List.find?_cons_of_neg _ (by simp [hk2])]
        exact find_map_upd_ne oid2 oid o h rest
      · rw [if_neg hk]
        rw [List.find?_cons_of_neg _ (by simp [hk2]),
          List.find?_cons_of_neg _ (by simp [hk2])]
        exact find_map_upd_ne oid2 oid o h rest

theorem lookupO_updateO_ne (st : OState) (oid2 oid : Nat) (o : OObj)
    (h : oid ≠ oid2) :
    lookupO (updateO st oid2 o) oid = lookupO st oid := by
  unfold lookupO updateO
  rw [find_map_upd_ne oid2 oid o h st.objs]

theorem lookupO_updateO_self (st : OState) (oid : Nat) (o o2 : OObj)
    (h : lookupO st oid = some o) :
    lookupO (updateO st oid o2) oid = some o2 := by
  unfold lookupO at h ⊢
  unfold updateO
  apply VSet.find_map_update
  rcases hf : st.objs.find? (fun p => p.1 = oid) with _ | p
  · rw [hf] at h
    simp at h
  · simp [hf]

theorem MarkKept_refl (st : OState) (oid : Nat) : MarkKept st st oid :=
  fun o m ho hob _ => ⟨o, ho, hob, rfl⟩

theorem MarkKept_trans {s1 s2 s3 : OState} {oid : Nat}
    (h1 : MarkKept s1 s2 oid) (h2 : MarkKept s2 s3 oid) : MarkKept s1 s3 oid := by
  intro o m ho hob hio
  rcases h1 o m ho hob hio with ⟨o2, ho2, hob2, hv2⟩
  rcases h2 o2 m ho2 hob2 hio with ⟨o3, ho3, hob3, hv3⟩
  exact ⟨o3, ho3, hob3, hv3.trans hv2⟩

theorem lookupO_bumpVm (st : OState) (obId oid : Nat) :
    lookupO (bumpVm st obId) oid = lookupO st oid := rfl

theorem MarkKept_bumpVm (st : OState) (obId oid : Nat) :
    MarkKept st (bumpVm st obId) oid :=
  fun o m ho hob _ => ⟨o, ho, hob, rfl⟩

theorem MarkKept_setReactive (st : OState) (oid2 : Nat) (k : String) (oid : Nat) :
    MarkKept st (setReactive st oid2 k) oid := by
  intro o m ho hob hio
  unfold setReactive
  rcases hl : lookupO st oid2 with _ | o2
  · exact ⟨o, ho, hob, rfl⟩
  · by_cases he : oid = oid2
    · subst he
      rw [hl] at ho
      cases ho
      refine ⟨_, lookupO_updateO_self st oid _ _ hl, hob, rfl⟩
    · rw [lookupO_updateO_ne st oid2 oid _ he]
      exact ⟨o, ho, hob, rfl⟩

theorem MarkKept_setMark_other (st : OState) (oid2 obId : Nat) (oid : Nat)
    (h : oid ≠ oid2) :
    MarkKept st (setMark st oid2 obId) oid := by
  intro o m ho hob hio
  unfold setMark
  rcases hl : lookupO st oid2 with _ | o2
  · exact ⟨o, ho, hob, rfl⟩
  · rw [lookupO_updateO_ne st oid2 oid _ h]
    exact ⟨o, ho, hob, rfl⟩

theorem createWith_keeps (wa : OState → List OVal → OState)
    (wo : OState → Nat → List String → OState)
    (hwa : ∀ st l oid, MarkKept st (wa st l) oid)
    (hwo : ∀ st o2 ks oid, MarkKept st (wo st o2 ks) oid)
    (st : OState) (oid2 : Nat) (o : OObj) (ar : Bool) (oid : Nat)
    (ho : lookupO st oid2 = some o)
    (hob : ∀ m, o.ob = some m → m.isObserver = false) :
    MarkKept st (createWith wa wo st oid2 o ar).2 oid := by
  unfold createWith
  by_cases hc : canObserve st o = true
  · rw [if_pos hc]
    simp only
    intro ox m hox hobx hiox
    by_cases he : oid = oid2
    · subst he
      rw [ho] at hox
      cases hox
      rw [hob m hobx] at hiox
      cases hiox
    · have hst' : lookupO
          { st with obsCount := st.obsCount + 1,
                    vmCounts := st.vmCounts ++ [(st.obsCount, 0)] } oid =
          lookupO st oid := rfl
      have h1 : MarkKept st
          (setMark
            { st with obsCount := st.obsCount + 1,
                      vmCounts := st.vmCounts ++ [(st.obsCount, 0)] } oid2
            st.obsCount) oid := by
        intro oy my hoy hoby hioy
        have := MarkKept_setMark_other
          { st with obsCount := st.obsCount + 1,
                    vmCounts := st.vmCounts ++ [(st.obsCount, 0)] } oid2
          st.obsCount oid he
        exact this oy my (hst'.trans hoy ▸ hoy) hoby hioy
      have h2 : MarkKept st
          (if o.isArray then
            wa (setMark
              { st with obsCount := st.obsCount + 1,
                        vmCounts := st.vmCounts ++ [(st.obsCount, 0)] } oid2
              st.obsCount) o.elems
          else
            wo (setMark
              { st with obsCount := st.obsCount + 1,
                        vmCounts := st.vmCounts ++ [(st.obsCount, 0)] } oid2
              st.obsCount) oid2 (enumKeys o)) oid := by
        by_cases ha : o.isArray = true
        · rw [if_pos ha]
          exact MarkKept_trans h1 (hwa _ _ _)
        · rw [if_neg ha]
          exact MarkKept_trans h1 (hwo _ _ _ _)
      by_cases har : ar = true
      · rw [if_pos har]
        exact MarkKept_trans h2 (MarkKept_bumpVm _ _ _) ox m hox hobx hiox
      · rw [if_neg har]
        exact h2 ox m hox hobx hiox
  · rw [if_neg hc]
    exact MarkKept_refl st oid

end VObs

namespace VObs

mutual

theorem observeF_keeps : ∀ (fuel : Nat) (st : OState) (v : OVal) (ar : Bool)
    (oid : Nat), MarkKept st (observeF fuel st v ar).2 oid
  | 0, st, _, _, oid => MarkKept_refl st oid
  | _ + 1, st, .prim, _, oid => MarkKept_refl st oid
  | fuel + 1, st, .ref oid2, ar, oid => by
    unfold observeF
    rcases hl : lookupO st oid2 with _ | o
    · exact MarkKept_refl st oid
    · simp only []
      by_cases hv : o.isVNode = true
      · rw [if_pos hv]
        exact MarkKept_refl st oid
      · rw [if_neg hv]
        split
        next m hob =>
          by_cases hio : m.isObserver = true
          · rw [if_pos hio]
            by_cases har : ar = true
            · rw [if_pos har]
              exact MarkKept_bumpVm st m.obId oid
            · rw [if_neg har]
              exact MarkKept_refl st oid
          · rw [if_neg hio]
            exact createWith_keeps _ _
              (fun s l oidx => observeMany_keeps fuel s l oidx)
              (fun s o2 ks oidx => walkFields_keeps fuel s o2 ks oidx)
              st oid2 o ar oid hl
              (fun mx hmx => by
                rw [hob] at hmx
                cases hmx
                exact eq_false_of_ne_true hio)
        next hob =>
          exact createWith_keeps _ _
            (fun s l oidx => observeMany_keeps fuel s l oidx)
            (fun s o2 ks oidx => walkFields_keeps fuel s o2 ks oidx)
            st oid2 o ar oid hl
            (fun mx hmx => by rw [hob] at hmx; cases hmx)

theorem observeMany_keeps : ∀ (fuel : Nat) (st : OState) (l : List OVal)
    (oid : Nat), MarkKept st (observeMany fuel st l) oid
  | 0, st, _, oid => MarkKept_refl st oid
  | _ + 1, st, [], oid => MarkKept_refl st oid
  | fuel + 1, st, v :: rest, oid => by
    unfold observeMany
    exact MarkKept_trans (observeF_keeps fuel st v false oid)
      (observeMany_keeps fuel _ rest oid)

theorem walkFields_keeps : ∀ (fuel : Nat) (st : OState) (oid2 : Nat)
    (ks : List String) (oid : Nat), MarkKept st (walkFields fuel st oid2 ks) oid
  | 0, st, _, _, oid => MarkKept_refl st oid
  | _ + 1, st, _, [], oid => MarkKept_refl st oid
  | fuel + 1, st, oid2, k :: rest, oid => by
    unfold walkFields
    refine MarkKept_trans ?_ (walkFields_keeps fuel _ oid2 rest oid)
    split
    next o hl =>
      split
      next f hf =>
        exact MarkKept_trans (observeF_keeps fuel st f.value false oid)
          (MarkKept_setReactive _ oid2 k oid)
      next hf =>
        exact MarkKept_refl st oid
    next hl =>
      exact MarkKept_refl st oid

end

end VObs

namespace VObs

theorem lookupO_reconf (st : OState) (n : Nat) (vc : List (Nat × Nat)) (oid : Nat) :
    lookupO { st with obsCount := n, vmCounts := vc } oid = lookupO st oid := rfl

theorem setMark_found (st : OState) (oid : Nat) (o : OObj) (obId : Nat)
    (ho : lookupO st oid = some o) :
    lookupO (setMark st oid obId) oid =
      some { o with ob := some ⟨obId, true, false⟩ } := by
  unfold setMark
  simp only [ho]
  exact lookupO_updateO_self st oid o _ ho

theorem createWith_mark (wa : OState → List OVal → OState)
    (wo : OState → Nat → List String → OState)
    (hwa : ∀ st l oid, MarkKept st (wa st l) oid)
    (hwo : ∀ st o2 ks oid, MarkKept st (wo st o2 ks) oid)
    (st : OState) (oid2 : Nat) (o : OObj) (ar : Bool)
    (ho : lookupO st oid2 = some o)
    (hv : o.isVNode = false)
    (hc : canObserve st o = true) :
    (createWith wa wo st oid2 o ar).1 = some st.obsCount ∧
    ∃ o2, lookupO (createWith wa wo st oid2 o ar).2 oid2 = some o2 ∧
      o2.ob = some ⟨st.obsCount, true, false⟩ ∧ o2.isVNode = false := by
  have hoA : lookupO
      { st with obsCount := st.obsCount + 1,
                vmCounts := st.vmCounts ++ [(st.obsCount, 0)] } oid2 = some o := ho
  have h1 : lookupO
      (setMark
        { st with obsCount := st.obsCount + 1,
                  vmCounts := st.vmCounts ++ [(st.obsCount, 0)] } oid2
        st.obsCount) oid2 =
      some { o with ob := some ⟨st.obsCount, true, false⟩ } :=
    setMark_found _ oid2 o st.obsCount hoA
  have h3 : ∃ o2,
      lookupO
        (if o.isArray then
          wa (setMark
            { st with obsCount := st.obsCount + 1,
                      vmCounts := st.vmCounts ++ [(st.obsCount, 0)] } oid2
            st.obsCount) o.elems
        else
          wo (setMark
            { st with obsCount := st.obsCount + 1,
                      vmCounts := st.vmCounts ++ [(st.obsCount, 0)] } oid2
            st.obsCount) oid2 (enumKeys o)) oid2 = some o2 ∧
      o2.ob = some ⟨st.obsCount, true, false⟩ ∧ o2.isVNode = false := by
    by_cases ha : o.isArray = true
    · rw [if_pos ha]
      rcases hwa _ o.elems oid2 _ _ h1 rfl rfl with ⟨o2, hl2, hb2, hv2⟩
      exact ⟨o2, hl2, hb2, hv2.trans hv⟩
    · rw [if_neg ha]
      rcases hwo _ oid2 (enumKeys o) oid2 _ _ h1 rfl rfl with ⟨o2, hl2, hb2, hv2⟩
      exact ⟨o2, hl2, hb2, hv2.trans hv⟩
  have hbump : ∀ (b : Bool) (x : OState) (i : Nat),
      lookupO (if b then bumpVm x i else x) oid2 = lookupO x oid2 := by
    intro b x i
    cases b
    · rfl
    · rfl
  rcases h3 with ⟨o2, hl2, hb2, hv2⟩
  constructor
  · unfold createWith
    rw [if_pos hc]
  · unfold createWith
    rw [if_pos hc]
    exact ⟨o2, (hbump ar _ st.obsCount).trans hl2, hb2, hv2⟩

end VObs

/-- C8: `observe` is idempotent and installs a non-enumerable `__ob__`: if a
first `observe(value, asRootData)` on a not-yet-marked object attaches an
Observer (returns `some obId`), then the object now carries the
non-enumerable `__ob__` mark `obId`, and any later `observe` of the same
value returns that very observer id and changes nothing but the optional
`vmCount` bump — no second Observer is created. -/
theorem observe_idempotent_nonenum (fuel fuel2 : Nat) (st : VObs.OState)
    (oid obId : Nat) (ar ar2 : Bool) (st2 : VObs.OState)
    (h1 : VObs.observeF (fuel + 1) st (.ref oid) ar = (some obId, st2))
    (h0 : VObs.markOf st oid = none) :
    VObs.markOf st2 oid = some ⟨obId, true, false⟩ ∧
    VObs.observeF (fuel2 + 1) st2 (.ref oid) ar2 =
      (some obId, if ar2 then VObs.bumpVm st2 obId else st2) := by
  unfold VObs.observeF at h1
  rcases hl : VObs.lookupO st oid with _ | o
  · simp only [hl, Prod.mk.injEq] at h1
    exact Option.noConfusion h1.1
  · simp only [hl] at h1
    have hob : o.ob = none := by
      unfold VObs.markOf at h0
      rw [hl] at h0
      simpa using h0
    by_cases hv : o.isVNode = true
    · rw [if_pos hv] at h1
      simp only [Prod.mk.injEq] at h1
      exact Option.noConfusion h1.1
    · rw [if_neg hv] at h1
      simp only [hob] at h1
      by_cases hc : VObs.canObserve st o = true
      · have hmark := VObs.createWith_mark (VObs.observeMany fuel)
          (VObs.walkFields fuel)
          (fun s l x => VObs.observeMany_keeps fuel s l x)
          (fun s o2 ks x => VObs.walkFields_keeps fuel s o2 ks x)
          st oid o ar hl (eq_false_of_ne_true hv) hc
        have hid : obId = st.obsCount := by
          have := hmark.1
          rw [h1] at this
          exact Option.some.inj this
        rcases hmark.2 with ⟨o2, hl2, hb2, hv2⟩
        rw [h1] at hl2
        have hnv : ¬ (o2.isVNode = true) := by
          rw [hv2]
          exact Bool.false_ne_true
        subst hid
        constructor
        · unfold VObs.markOf
          rw [hl2]
          simpa using hb2
        · unfold VObs.observeF
          simp only [hl2]
          rw [if_neg hnv]
          simp only [hb2]
          rw [if_pos trivial]
      · unfold VObs.createWith at h1
        rw [if_neg hc] at h1
        simp only [Prod.mk.injEq] at h1
        exact Option.noConfusion h1.1

theorem observe_idempotent_nonenum_witness :
    VObs.markOf (VObs.observeF 10 VObs.st0demo (.ref 0) false).2 0 =
      some ⟨0, true, false⟩ ∧
    VObs.observeF 1 (VObs.observeF 10 VObs.st0demo (.ref 0) false).2
        (.ref 0) false =
      (some 0, (VObs.observeF 10 VObs.st0demo (.ref 0) false).2) := by
  have h := observe_idempotent_nonenum 9 0 VObs.st0demo 0 0 false false
    (VObs.observeF 10 VObs.st0demo (.ref 0) false).2 rfl rfl
  exact ⟨h.1, h.2⟩

/-- C4 counterexample: under the spec's own (hook, payload) view, parsing
`"<div>a<b</div>"` does not emit `start(div), chars("a<b"), end(div)` — the
`<b` is not kept as text. -/
theorem parseHTML_scenarioE_not_as_claimed :
    (VHTML.parseHTML VHTML.demoOpts VHTML.demoInput).map VHTML.shape ≠
      VHTML.scenarioEClaimed := by
  decide

/-- C4 (amended): parsing `"<div>a<b</div>"` emits exactly
`start("div", [], false, 0, 5)`, `chars("a", 5, 6)` and
`end("div", 8, 14)`: the stray `<b` is consumed by `parseStartTag` as a
start-tag open that never finds a close and is silently dropped — it is
neither part of any text chunk nor reported. -/
theorem parseHTML_drops_unclosed_start_tag_open :
    VHTML.parseHTML VHTML.demoOpts VHTML.demoInput =
      [.start ("div".toList) [] false 0 5,
       .chars ("a".toList) (some 5) (some 6),
       .endT ("div".toList) 8 14] := by
  decide
